import Mathlib

/-!
Shallow embedding of the robust queue library (`qlib.c` / `qlib.h`).

The library manages up to `MAXQ` queues, each a ring buffer of up to
`MAXELT` integers.  Queues are referenced by tickets: `unsigned int`
values packing `index + IOFFSET` in the high 16 bits and
`noncectr + NOFFSET` in the low 16 bits.  C `unsigned int` arithmetic is
modelled as `Nat` reduced mod `2 ^ 32`; C `int` fields (`head`, `count`,
error codes, queue elements) are modelled as `Int`.  The error-message
buffer `qe_errbuf` is write-only state never read by the library and is
not modelled.  `malloc` failure (`QE_NOROOM`) is not modelled: allocation
is assumed to succeed, which is the only path the specification's claims
speak about.
-/

namespace QLib

/-- max number of queues (qlib.c `MAXQ`). -/
def MAXQ : Nat := 1024

/-- max number of elements per queue (qlib.c `MAXELT`). -/
def MAXELT : Nat := 1024

/-- offset hiding the index number in a ticket (qlib.c `IOFFSET`). -/
def IOFFSET : Nat := 0x1221

/-- offset hiding the nonce in a ticket (qlib.c `NOFFSET`). -/
def NOFFSET : Nat := 0x0502

/-- modulus of C `unsigned int` arithmetic. -/
def U32 : Nat := 4294967296

/-- 2 ^ 16, the size of each 16-bit ticket field. -/
def U16 : Nat := 65536

/-- no errors (qlib.h). -/
def QE_NONE : Int := 0

/-- bad parameter (qlib.h). -/
def QE_BADPARAM : Int := -1

/-- bad ticket for the queue (qlib.h). -/
def QE_BADTICKET : Int := -3

/-- take off an empty queue (qlib.h). -/
def QE_EMPTY : Int := -4

/-- append to a full queue (qlib.h). -/
def QE_FULL : Int := -5

/-- can't allocate space (qlib.h). -/
def QE_NOROOM : Int := -6

/-- too many queues in use (qlib.h). -/
def QE_TOOMANYQS : Int := -7

/-- internal inconsistency (qlib.h). -/
def QE_INTINCON : Int := -8

/-- queue is too full (qlib.h); this is the code `put_on_queue` returns
on a full queue, i.e. the spec's `QueueFull`. -/
def QE_TOOFULL : Int := -9

/-- `QE_ISERROR(x)`: `(x) < 0` (qlib.h). -/
def QE_ISERROR (x : Int) : Bool := x < 0

/-- The queue structure (qlib.c `QUEUE`).  `que` is the element array,
read and written only at indices `< MAXELT`; the contents `malloc`
leaves in it are unobservable until written, so a fresh queue's array is
modelled as all zeros. -/
@[ext] structure QUEUE where
  ticket : Nat
  que : Nat → Int
  head : Int
  count : Int

/-- The global state: the slot table `queues[MAXQ]` (indices `≥ MAXQ`
are always empty) and the nonce generator `noncectr`. -/
@[ext] structure QState where
  queues : Nat → Option QUEUE
  noncectr : Nat

/-- The initial state: all slots `NULL`, `noncectr = 1`. -/
def init : QState := ⟨fun _ => none, 1⟩

/-- `qtktref` (qlib.c lines 89-126): mint a ticket for `index`.
Returns the ticket or an error code, together with the new value of
`noncectr`.  The C form `low != (noncectr++ + NOFFSET) || low == 0`
increments `noncectr` (mod `2 ^ 32`) whether or not the test fails, so
both the error branch at that line and the success branch carry the
incremented counter.  In C the error codes travel in the same
`unsigned int` channel as tickets; since every minted ticket is
`< 2 ^ 31` (its high half is masked with `0x7fff`) and every error code
is negative as an `int`, the `Except` split is exact. -/
def qtktref (index : Nat) (nonce : Nat) : Except Int Nat × Nat :=
  if MAXQ < index then (Except.error QE_INTINCON, nonce)
  else
    let high := (index + IOFFSET) % 32768
    if high ≠ index + IOFFSET then (Except.error QE_INTINCON, nonce)
    else
      let sum := (nonce + NOFFSET) % U32
      let low := sum % U16
      if low ≠ sum ∨ low = 0 then (Except.error QE_INTINCON, (nonce + 1) % U32)
      else (Except.ok (high * U16 + low), (nonce + 1) % U32)

/-- The index computation of `readref` (qlib.c line 150):
`((qno >> 16) & 0xffff) - IOFFSET` in `unsigned int` arithmetic. -/
def decodeIndex (qno : Nat) : Nat :=
  ((qno / U16) % U16 + (U32 - IOFFSET)) % U32

/-- `readref` (qlib.c lines 144-189): check a ticket and turn it into an
index.  The checks run in source order: index range, slot in use, ticket
match, head/count bounds, non-zero stored nonce. -/
def readref (s : QState) (qno : Nat) : Except Int Nat :=
  let index := decodeIndex qno
  if MAXQ ≤ index then Except.error QE_BADTICKET
  else
    match s.queues index with
    | none => Except.error QE_BADTICKET
    | some q =>
      if q.ticket ≠ qno then Except.error QE_BADTICKET
      else if q.head < 0 ∨ (MAXELT : Int) ≤ q.head ∨
          q.count < 0 ∨ (MAXELT : Int) < q.count then Except.error QE_INTINCON
      else if q.ticket % U16 = 0 then Except.error QE_INTINCON
      else Except.ok index

/-- The scan loop of `create_queue` (qlib.c lines 208-210): starting at
`i` with `fuel` slots left to inspect, return the first index holding
`NULL`, or the index one past the last inspected slot. -/
def findSlot (qs : Nat → Option QUEUE) : Nat → Nat → Nat
  | i, 0 => i
  | i, fuel + 1 => if (qs i).isNone then i else findSlot qs (i + 1) fuel

/-- A freshly initialized queue entry (qlib.c lines 230-232):
`head = count = 0`, ticket stored. -/
def mkQueue (tkt : Nat) : QUEUE :=
  { ticket := tkt, que := fun _ => 0, head := 0, count := 0 }

/-- Continuation of `create_queue` after `qtktref` (qlib.c lines
222-234).  On mint failure the freshly allocated slot is freed again, so
the table is unchanged but `noncectr` keeps the increment performed by
`qtktref`; on success the slot is initialized with `head = count = 0`
and the minted ticket. -/
def create_after (s : QState) (cur : Nat) : Except Int Nat × Nat → Except Int Nat × QState
  | (Except.error e, nn) => (Except.error e, ⟨s.queues, nn⟩)
  | (Except.ok tkt, nn) =>
      (Except.ok tkt,
       ⟨fun i => if i = cur then some (mkQueue tkt) else s.queues i, nn⟩)

/-- `create_queue` (qlib.c lines 202-235).  Scans for the first `NULL`
slot; `QE_TOOMANYQS` if none; otherwise mints a ticket and finishes via
`create_after`. -/
def create_queue (s : QState) : Except Int Nat × QState :=
  let cur := findSlot s.queues 0 MAXQ
  if cur = MAXQ then (Except.error QE_TOOMANYQS, s)
  else create_after s cur (qtktref cur s.noncectr)

/-- Continuation of `delete_queue` after `readref` (qlib.c lines
256-265): on a valid index free the slot. -/
def delete_after (s : QState) : Except Int Nat → Int × QState
  | Except.error e => (e, s)
  | Except.ok cur =>
      (QE_NONE, ⟨fun i => if i = cur then none else s.queues i, s.noncectr⟩)

/-- `delete_queue` (qlib.c lines 248-266): validate the ticket, then
free the slot. -/
def delete_queue (s : QState) (qno : Nat) : Int × QState :=
  delete_after s (readref s qno)

/-- `put_on_queue` (qlib.c lines 282-310): validate the ticket; fail
with `QE_TOOFULL` on a full queue; otherwise write at
`(head + count) % MAXELT` and increment `count`.  The `none` branch is
unreachable: `readref` only returns indices of occupied slots (in C the
slot pointer is dereferenced directly).  `readref` has ensured
`head ≥ 0` and `count ≥ 0`, so C's truncating `%` agrees with
`Int.emod` here. -/
def put_after (s : QState) (n : Int) : Except Int Nat → Int × QState
  | Except.error e => (e, s)
  | Except.ok cur =>
    match s.queues cur with
    | none => (QE_INTINCON, s)
    | some q =>
      if q.count = (MAXELT : Int) then (QE_TOOFULL, s)
      else
        let pos := ((q.head + q.count).emod (MAXELT : Int)).toNat
        let qq : QUEUE :=
          { q with que := fun j => if j = pos then n else q.que j,
                   count := q.count + 1 }
        (QE_NONE, ⟨fun i => if i = cur then some qq else s.queues i, s.noncectr⟩)

def put_on_queue (s : QState) (qno : Nat) (n : Int) : Int × QState :=
  put_after s n (readref s qno)

/-- `take_off_queue` (qlib.c lines 328-361): validate the ticket; fail
with `QE_EMPTY` on an empty queue; otherwise decrement `count`, read at
`head`, advance `head = (head + 1) % MAXELT`, and return the element in
the same `int` channel used for error codes.  The `none` branch is
unreachable as in `put_on_queue`. -/
def take_after (s : QState) : Except Int Nat → Int × QState
  | Except.error e => (e, s)
  | Except.ok cur =>
    match s.queues cur with
    | none => (QE_INTINCON, s)
    | some q =>
      if q.count = 0 then (QE_EMPTY, s)
      else
        let qq : QUEUE :=
          { q with count := q.count - 1,
                   head := (q.head + 1).emod (MAXELT : Int) }
        (q.que q.head.toNat,
         ⟨fun i => if i = cur then some qq else s.queues i, s.noncectr⟩)

def take_off_queue (s : QState) (qno : Nat) : Int × QState :=
  take_after s (readref s qno)

/-- One public operation performed on the global state. -/
inductive Step : QState → QState → Prop
  | create (s : QState) : Step s (create_queue s).2
  | delete (s : QState) (qno : Nat) : Step s (delete_queue s qno).2
  | put (s : QState) (qno : Nat) (n : Int) : Step s (put_on_queue s qno n).2
  | take (s : QState) (qno : Nat) : Step s (take_off_queue s qno).2

/-- Any number of public operations. -/
def Steps : QState → QState → Prop := Relation.ReflTransGen Step

/-- A state reachable from the initial state by public operations. -/
def Reachable (s : QState) : Prop := Steps init s

/-- The per-slot invariant the spec lists for occupied slots:
`head` in `[0, MAXELT)`, `count` in `[0, MAXELT]`, non-zero generation
field in the stored ticket. -/
def Inv (s : QState) : Prop :=
  ∀ i q, s.queues i = some q →
    0 ≤ q.head ∧ q.head < (MAXELT : Int) ∧
    0 ≤ q.count ∧ q.count ≤ (MAXELT : Int) ∧
    q.ticket % U16 ≠ 0

/-- The ticket-shape invariant: every occupied slot sits below `MAXQ`
and stores a ticket whose high 16 bits are its own index plus
`IOFFSET`. -/
def TInv (s : QState) : Prop :=
  ∀ i q, s.queues i = some q → i < MAXQ ∧ q.ticket / U16 % U16 = i + IOFFSET

/-- `q` holds exactly the values of `L`, oldest first, in ring-buffer
order starting at `head`. -/
def Rep (q : QUEUE) (L : List Int) : Prop :=
  0 ≤ q.head ∧ q.head < (MAXELT : Int) ∧ q.count = L.length ∧
  L.length ≤ MAXELT ∧
  ∀ k (hk : k < L.length),
    q.que ((q.head.toNat + k) % MAXELT) = L.get ⟨k, hk⟩

/-- Perform `put_on_queue` once per value of `vs`, collecting the
return codes and the final state. -/
def putList (t : Nat) : QState → List Int → List Int × QState
  | s, [] => ([], s)
  | s, v :: vs =>
    let r := put_on_queue s t v
    let rest := putList t r.2 vs
    (r.1 :: rest.1, rest.2)

/-- Perform `take_off_queue` `n` times, collecting the returned values
and the final state. -/
def takeList (t : Nat) : QState → Nat → List Int × QState
  | s, 0 => ([], s)
  | s, n + 1 =>
    let r := take_off_queue s t
    let rest := takeList t r.2 n
    (r.1 :: rest.1, rest.2)

/-- An all-empty slot table with nonce counter `n`. -/
def emptyTable (n : Nat) : QState := ⟨fun _ => none, n⟩

/-- Claim C1 as stated: after create (handle `h`, slot `i`), successful
delete, and a later create returning `hh` for the same slot `i`, every
operation presented with the old handle `h` fails with `QE_BADTICKET`
and leaves the state unchanged. -/
def C1Statement : Prop :=
  ∀ s0 s1 s2 s3 s4 : QState, ∀ h hh i : Nat,
    Reachable s0 →
    create_queue s0 = (Except.ok h, s1) →
    decodeIndex h = i →
    delete_queue s1 h = (QE_NONE, s2) →
    Steps s2 s3 →
    create_queue s3 = (Except.ok hh, s4) →
    decodeIndex hh = i →
    ((delete_queue s4 h).1 = QE_BADTICKET ∧ (delete_queue s4 h).2 = s4 ∧
     (∀ v, (put_on_queue s4 h v).1 = QE_BADTICKET ∧
           (put_on_queue s4 h v).2 = s4) ∧
     (take_off_queue s4 h).1 = QE_BADTICKET ∧ (take_off_queue s4 h).2 = s4)

/-- Claim C4 as stated: `readref` returns `QE_BADTICKET` exactly when
the decoded index is out of range, the slot is empty, or the stored
ticket differs; and returns `QE_INTINCON` exactly when the occupied
slot's head/count are out of bounds or its stored generation field is
zero. -/
def C4Statement : Prop :=
  ∀ (s : QState) (qno : Nat), qno < U32 →
    ((readref s qno = Except.error QE_BADTICKET ↔
       MAXQ ≤ decodeIndex qno ∨ s.queues (decodeIndex qno) = none ∨
       (∃ q, s.queues (decodeIndex qno) = some q ∧ q.ticket ≠ qno)) ∧
     (readref s qno = Except.error QE_INTINCON ↔
       (∃ q, s.queues (decodeIndex qno) = some q ∧
         (q.head < 0 ∨ (MAXELT : Int) ≤ q.head ∨
          q.count < 0 ∨ (MAXELT : Int) < q.count ∨ q.ticket % U16 = 0))))

/-- Claim C10 as stated: in every reachable state whose counter
satisfies `2 ^ 16 ≤ noncectr + NOFFSET`, minting fails with
`QE_INTINCON` while still incrementing the counter, and `create_queue`
returns `QE_INTINCON` leaving the slot table unchanged. -/
def C10Statement : Prop :=
  ∀ (s : QState) (idx : Nat), Reachable s →
    U16 ≤ s.noncectr + NOFFSET → idx ≤ MAXQ →
    ((qtktref idx s.noncectr).1 = Except.error QE_INTINCON ∧
     (qtktref idx s.noncectr).2 = (s.noncectr + 1) % U32 ∧
     (create_queue s).1 = Except.error QE_INTINCON ∧
     (create_queue s).2.queues = s.queues)

/-- The first ticket ever minted: slot 0, nonce 1. -/
def wT1 : Nat := 0x12210503

/-- The second ticket: slot 1, nonce 2 (when slot 0 is still live). -/
def wT2 : Nat := 0x12220504

/-- State after one `create_queue` from `init`: slot 0 live and empty. -/
def wS1 : QState := (create_queue init).2

/-- State after two `create_queue` calls from `init`. -/
def wS2 : QState := (create_queue wS1).2

/-- A live queue at capacity (`count = MAXELT`). -/
def wQFull : QUEUE := { ticket := wT1, que := fun _ => 0, head := 0, count := 1024 }

/-- A state holding `wQFull` in slot 0. -/
def wSFull : QState := ⟨fun i => if i = 0 then some wQFull else none, 2⟩

/-- Reachable state whose slot-0 queue holds the single value `-3`
(numerically equal to `QE_BADTICKET`). -/
def wSNeg : QState := (put_on_queue wS1 wT1 (-3)).2

/-- A state with every slot of the table occupied. -/
def wSAllFull : QState := ⟨fun i => if i < MAXQ then some (mkQueue wT1) else none, 2⟩

/-- A corrupted occupied slot: stored ticket `wT1` but `head = MAXELT`,
outside the `[0, MAXELT)` bound. -/
def qBadC4 : QUEUE := { ticket := wT1, que := fun _ => 0, head := 1024, count := 0 }

/-- A state holding the corrupted slot `qBadC4` at index 0. -/
def sBadC4 : QState := ⟨fun i => if i = 0 then some qBadC4 else none, 3⟩

/-- A fabricated ticket decoding to slot 0 whose generation field
differs from `wT1`. -/
def wT1b : Nat := 0x12210504

/-- The slot-0 queue of `wSNeg`: one element, the value `-3`. -/
def wQNeg : QUEUE := { ticket := wT1, que := fun j => if j = 0 then -3 else 0, head := 0, count := 1 }

lemma U16_pos : 0 < U16 := by decide

/-- Dividing a packed ticket by `2 ^ 16` recovers its high half. -/
lemma pack_div (a b : Nat) (hb : b < U16) : (a * U16 + b) / U16 = a := by
  have h : U16 = 65536 := rfl
  rw [h] at hb ⊢
  omega

/-- Reducing a packed ticket mod `2 ^ 16` recovers its low half. -/
lemma pack_mod (a b : Nat) (hb : b < U16) : (a * U16 + b) % U16 = b := by
  have h : U16 = 65536 := rfl
  rw [h] at hb ⊢
  omega

/-- Decoding a ticket packed for index `i` gives back `i`, whenever the
high half `i + IOFFSET` fits in 16 bits. -/
lemma decodeIndex_pack (i b : Nat) (hi : i + IOFFSET < U16) (hiU : i < U32)
    (hb : b < U16) : decodeIndex ((i + IOFFSET) * U16 + b) = i := by
  unfold decodeIndex
  rw [pack_div _ _ hb, Nat.mod_eq_of_lt hi]
  have h1 : i + IOFFSET + (U32 - IOFFSET) = i + U32 := by
    have : IOFFSET ≤ U32 := by decide
    omega
  rw [h1, Nat.add_mod_right, Nat.mod_eq_of_lt hiU]

/-- For in-range indices, the high half always fits. -/
lemma high_fits {i : Nat} (hi : i ≤ MAXQ) : (i + IOFFSET) % 32768 = i + IOFFSET := by
  have : i + IOFFSET < 32768 := by
    have h1 : MAXQ = 1024 := rfl
    have h2 : IOFFSET = 4641 := rfl
    omega
  exact Nat.mod_eq_of_lt this

/-- Success form of `qtktref`: when the computed nonce is 16-bit and
non-zero, the minted ticket is `(index + IOFFSET) * 2 ^ 16 + nonce`. -/
lemma qtktref_ok_intro {i n : Nat} (hi : i ≤ MAXQ)
    (h1 : (n + NOFFSET) % U32 < U16) (h2 : (n + NOFFSET) % U32 ≠ 0) :
    qtktref i n =
      (Except.ok ((i + IOFFSET) * U16 + (n + NOFFSET) % U32), (n + 1) % U32) := by
  unfold qtktref
  rw [if_neg (by omega), high_fits hi, if_neg (by simp)]
  have hlow : (n + NOFFSET) % U32 % U16 = (n + NOFFSET) % U32 := Nat.mod_eq_of_lt h1
  rw [if_neg]
  · simp only [hlow]
  · rw [hlow]
    simp [h2]

/-- Failure form of `qtktref`: when the computed nonce overflows 16 bits
or is zero, minting fails with `QE_INTINCON` but the counter still
advances. -/
lemma qtktref_err_intro {i n : Nat} (hi : i ≤ MAXQ)
    (h : ¬((n + NOFFSET) % U32 < U16 ∧ (n + NOFFSET) % U32 ≠ 0)) :
    qtktref i n = (Except.error QE_INTINCON, (n + 1) % U32) := by
  have hcond : (n + NOFFSET) % U32 % U16 ≠ (n + NOFFSET) % U32 ∨
      (n + NOFFSET) % U32 % U16 = 0 := by
    by_cases hlt : (n + NOFFSET) % U32 < U16
    · have h2 : (n + NOFFSET) % U32 = 0 := by
        by_contra h0
        exact h ⟨hlt, h0⟩
      right
      rw [h2]
      simp
    · left
      intro heq
      exact hlt (by rw [← heq]; exact Nat.mod_lt _ U16_pos)
  unfold qtktref
  rw [if_neg (by omega), high_fits hi, if_neg (by simp), if_pos hcond]

/-- `qtktref` advances the counter by exactly one (mod `2 ^ 32`) on
every call that passes the index-range check. -/
lemma qtktref_snd {i : Nat} (n : Nat) (hi : i ≤ MAXQ) :
    (qtktref i n).2 = (n + 1) % U32 := by
  by_cases h : (n + NOFFSET) % U32 < U16 ∧ (n + NOFFSET) % U32 ≠ 0
  · rw [qtktref_ok_intro hi h.1 h.2]
  · rw [qtktref_err_intro hi h]

/-- Everything a successful mint guarantees about its output. -/
lemma qtktref_ok_elim {i n t nn : Nat} (h : qtktref i n = (Except.ok t, nn)) :
    i ≤ MAXQ ∧ t = (i + IOFFSET) * U16 + (n + NOFFSET) % U32 ∧
    (n + NOFFSET) % U32 < U16 ∧ (n + NOFFSET) % U32 ≠ 0 ∧ nn = (n + 1) % U32 := by
  by_cases hi : i ≤ MAXQ
  · by_cases hc : (n + NOFFSET) % U32 < U16 ∧ (n + NOFFSET) % U32 ≠ 0
    · rw [qtktref_ok_intro hi hc.1 hc.2] at h
      obtain ⟨h1, h2⟩ := Prod.mk.injEq .. ▸ h
      exact ⟨hi, (Except.ok.injEq .. ▸ h1).symm, hc.1, hc.2, h2.symm⟩
    · rw [qtktref_err_intro hi hc] at h
      simp at h
  · exfalso
    unfold qtktref at h
    rw [if_pos (by omega)] at h
    simp at h

/-- The ticket a successful mint returns decodes to the minted index,
and its generation field is the computed non-zero nonce. -/
lemma qtktref_ok_fields {i n t nn : Nat} (h : qtktref i n = (Except.ok t, nn)) :
    decodeIndex t = i ∧ t % U16 ≠ 0 ∧ t / U16 % U16 = i + IOFFSET := by
  obtain ⟨hi, ht, hlt, hne, _⟩ := qtktref_ok_elim h
  have hfit : i + IOFFSET < U16 := by
    have h1 : MAXQ = 1024 := rfl
    have h2 : IOFFSET = 4641 := rfl
    have h3 : U16 = 65536 := rfl
    omega
  have hiU : i < U32 := by
    have h1 : MAXQ = 1024 := rfl
    have h2 : U32 = 4294967296 := rfl
    omega
  refine ⟨?_, ?_, ?_⟩
  · rw [ht]
    exact decodeIndex_pack i _ hfit hiU hlt
  · rw [ht, pack_mod _ _ hlt]
    exact hne
  · rw [ht, pack_div _ _ hlt, Nat.mod_eq_of_lt hfit]

lemma findSlot_ge (qs : Nat → Option QUEUE) :
    ∀ fuel i, i ≤ findSlot qs i fuel := by
  intro fuel
  induction fuel with
  | zero => intro i; exact Nat.le_refl i
  | succ fuel ih =>
    intro i
    unfold findSlot
    split
    · exact Nat.le_refl i
    · exact Nat.le_trans (Nat.le_succ i) (ih (i + 1))

lemma findSlot_le (qs : Nat → Option QUEUE) :
    ∀ fuel i, findSlot qs i fuel ≤ i + fuel := by
  intro fuel
  induction fuel with
  | zero => intro i; exact Nat.le_refl i
  | succ fuel ih =>
    intro i
    unfold findSlot
    split
    · omega
    · have := ih (i + 1)
      omega

/-- If the scan stops strictly before exhausting its fuel, it stopped
at an empty slot. -/
lemma findSlot_none (qs : Nat → Option QUEUE) :
    ∀ fuel i, findSlot qs i fuel < i + fuel → qs (findSlot qs i fuel) = none := by
  intro fuel
  induction fuel with
  | zero =>
    intro i h
    unfold findSlot at h
    omega
  | succ fuel ih =>
    intro i h
    unfold findSlot at h ⊢
    by_cases he : (qs i).isNone
    · rw [if_pos he] at h ⊢
      exact Option.isNone_iff_eq_none.mp he
    · rw [if_neg he] at h ⊢
      exact ih (i + 1) (by omega)

/-- Every slot strictly before the scan's stopping point is occupied. -/
lemma findSlot_min (qs : Nat → Option QUEUE) :
    ∀ fuel i k, i ≤ k → k < findSlot qs i fuel → qs k ≠ none := by
  intro fuel
  induction fuel with
  | zero =>
    intro i k h1 h2
    unfold findSlot at h2
    omega
  | succ fuel ih =>
    intro i k h1 h2
    unfold findSlot at h2
    by_cases he : (qs i).isNone
    · rw [if_pos he] at h2
      omega
    · rw [if_neg he] at h2
      by_cases hk : k = i
      · subst hk
        intro hn
        exact he (Option.isNone_iff_eq_none.mpr hn)
      · exact ih (i + 1) k (by omega) h2

/-- `readref`'s complete case analysis, in source order: out-of-range
index, empty slot, ticket mismatch (all `QE_BADTICKET`), head/count out
of bounds, zero stored generation (both `QE_INTINCON`), or success. -/
lemma readref_cases (s : QState) (qno : Nat) :
    (MAXQ ≤ decodeIndex qno ∧ readref s qno = Except.error QE_BADTICKET) ∨
    (decodeIndex qno < MAXQ ∧ s.queues (decodeIndex qno) = none ∧
      readref s qno = Except.error QE_BADTICKET) ∨
    (∃ q, decodeIndex qno < MAXQ ∧ s.queues (decodeIndex qno) = some q ∧
      q.ticket ≠ qno ∧ readref s qno = Except.error QE_BADTICKET) ∨
    (∃ q, decodeIndex qno < MAXQ ∧ s.queues (decodeIndex qno) = some q ∧
      q.ticket = qno ∧
      (q.head < 0 ∨ (MAXELT : Int) ≤ q.head ∨ q.count < 0 ∨
        (MAXELT : Int) < q.count) ∧
      readref s qno = Except.error QE_INTINCON) ∨
    (∃ q, decodeIndex qno < MAXQ ∧ s.queues (decodeIndex qno) = some q ∧
      q.ticket = qno ∧ 0 ≤ q.head ∧ q.head < (MAXELT : Int) ∧ 0 ≤ q.count ∧
      q.count ≤ (MAXELT : Int) ∧ q.ticket % U16 = 0 ∧
      readref s qno = Except.error QE_INTINCON) ∨
    (∃ q, decodeIndex qno < MAXQ ∧ s.queues (decodeIndex qno) = some q ∧
      q.ticket = qno ∧ 0 ≤ q.head ∧ q.head < (MAXELT : Int) ∧ 0 ≤ q.count ∧
      q.count ≤ (MAXELT : Int) ∧ q.ticket % U16 ≠ 0 ∧
      readref s qno = Except.ok (decodeIndex qno)) := by
  by_cases h1 : MAXQ ≤ decodeIndex qno
  · left
    refine ⟨h1, ?_⟩
    unfold readref
    rw [if_pos h1]
  · cases hq : s.queues (decodeIndex qno) with
    | none =>
      right; left
      refine ⟨by omega, rfl, ?_⟩
      unfold readref
      rw [if_neg h1]
      simp only [hq]
    | some q =>
      by_cases h2 : q.ticket = qno
      · by_cases h3 : q.head < 0 ∨ (MAXELT : Int) ≤ q.head ∨ q.count < 0 ∨
            (MAXELT : Int) < q.count
        · right; right; right; left
          refine ⟨q, by omega, rfl, h2, h3, ?_⟩
          unfold readref
          rw [if_neg h1]
          simp only [hq]
          rw [if_neg (by simp [h2]), if_pos h3]
        · have h3' := h3
          push_neg at h3'
          obtain ⟨h3a, h3b, h3c, h3d⟩ := h3'
          by_cases h4 : q.ticket % U16 = 0
          · right; right; right; right; left
            refine ⟨q, by omega, rfl, h2, h3a, h3b, h3c, h3d, h4, ?_⟩
            unfold readref
            rw [if_neg h1]
            simp only [hq]
            rw [if_neg (by simp [h2]), if_neg h3, if_pos h4]
          · right; right; right; right; right
            refine ⟨q, by omega, rfl, h2, h3a, h3b, h3c, h3d, h4, ?_⟩
            unfold readref
            rw [if_neg h1]
            simp only [hq]
            rw [if_neg (by simp [h2]), if_neg h3, if_neg h4]
      · right; right; left
        refine ⟨q, by omega, rfl, h2, ?_⟩
        unfold readref
        rw [if_neg h1]
        simp only [hq]
        rw [if_pos h2]

/-- Characterization of a successful `readref`. -/
lemma readref_ok_iff (s : QState) (qno cur : Nat) :
    readref s qno = Except.ok cur ↔
      decodeIndex qno = cur ∧ decodeIndex qno < MAXQ ∧
      ∃ q, s.queues (decodeIndex qno) = some q ∧ q.ticket = qno ∧
        0 ≤ q.head ∧ q.head < (MAXELT : Int) ∧ 0 ≤ q.count ∧
        q.count ≤ (MAXELT : Int) ∧ q.ticket % U16 ≠ 0 := by
  constructor
  · intro h
    rcases readref_cases s qno with ⟨h1, he⟩ | ⟨h1, hq, he⟩ | ⟨q, h1, hq, h2, he⟩ |
      ⟨q, h1, hq, h2, h3, he⟩ | ⟨q, h1, hq, h2, h3a, h3b, h3c, h3d, h4, he⟩ |
      ⟨q, h1, hq, h2, h3a, h3b, h3c, h3d, h4, he⟩
    · rw [he] at h; exact absurd h (by simp)
    · rw [he] at h; exact absurd h (by simp)
    · rw [he] at h; exact absurd h (by simp)
    · rw [he] at h; exact absurd h (by simp)
    · rw [he] at h; exact absurd h (by simp)
    · rw [he] at h
      exact ⟨Except.ok.inj h, h1, q, hq, h2, h3a, h3b, h3c, h3d, h4⟩
  · rintro ⟨hcur, h1, q, hq, ht, hh0, hh1, hc0, hc1, hg⟩
    rcases readref_cases s qno with ⟨h1', he⟩ | ⟨h1', hq', he⟩ | ⟨q', h1', hq', h2', he⟩ |
      ⟨q', h1', hq', h2', h3', he⟩ | ⟨q', h1', hq', h2', h3a', h3b', h3c', h3d', h4', he⟩ |
      ⟨q', h1', hq', h2', h3a', h3b', h3c', h3d', h4', he⟩
    · omega
    · rw [hq] at hq'; exact absurd hq' (by simp)
    · rw [hq] at hq'
      have e := Option.some.inj hq'
      subst e
      exact absurd ht h2'
    · rw [hq] at hq'
      have e := Option.some.inj hq'
      subst e
      rcases h3' with h | h | h | h <;> omega
    · rw [hq] at hq'
      have e := Option.some.inj hq'
      subst e
      exact absurd h4' hg
    · rw [he, hcur]

/-- Unfolding `create_queue` to its continuation. -/
lemma create_queue_def (s : QState) :
    create_queue s =
      if findSlot s.queues 0 MAXQ = MAXQ then (Except.error QE_TOOMANYQS, s)
      else create_after s (findSlot s.queues 0 MAXQ)
        (qtktref (findSlot s.queues 0 MAXQ) s.noncectr) := rfl

lemma create_after_err (s : QState) (cur : Nat) (e : Int) (nn : Nat) :
    create_after s cur (Except.error e, nn) = (Except.error e, ⟨s.queues, nn⟩) := rfl

lemma create_after_okr (s : QState) (cur tkt nn : Nat) :
    create_after s cur (Except.ok tkt, nn) =
      (Except.ok tkt,
       ⟨fun i => if i = cur then some (mkQueue tkt) else s.queues i, nn⟩) := rfl

/-- Unfolding `delete_queue` to its continuation. -/
lemma delete_queue_def (s : QState) (qno : Nat) :
    delete_queue s qno = delete_after s (readref s qno) := rfl

lemma delete_after_err (s : QState) (e : Int) :
    delete_after s (Except.error e) = (e, s) := rfl

lemma delete_after_okr (s : QState) (cur : Nat) :
    delete_after s (Except.ok cur) =
      (QE_NONE, ⟨fun i => if i = cur then none else s.queues i, s.noncectr⟩) := rfl

/-- Unfolding `put_on_queue` to its continuation. -/
lemma put_on_queue_def (s : QState) (qno : Nat) (n : Int) :
    put_on_queue s qno n = put_after s n (readref s qno) := rfl

lemma put_after_err (s : QState) (n e : Int) :
    put_after s n (Except.error e) = (e, s) := rfl

lemma put_after_okr (s : QState) (n : Int) (cur : Nat) :
    put_after s n (Except.ok cur) =
      match s.queues cur with
      | none => (QE_INTINCON, s)
      | some q =>
        if q.count = (MAXELT : Int) then (QE_TOOFULL, s)
        else
          (QE_NONE,
           ⟨fun i => if i = cur then
               some { q with
                 que := fun j =>
                   if j = ((q.head + q.count).emod (MAXELT : Int)).toNat then n
                   else q.que j,
                 count := q.count + 1 }
             else s.queues i, s.noncectr⟩) := rfl

lemma put_after_some (s : QState) (n : Int) (cur : Nat) (q : QUEUE)
    (hq : s.queues cur = some q) :
    put_after s n (Except.ok cur) =
      if q.count = (MAXELT : Int) then (QE_TOOFULL, s)
      else
        (QE_NONE,
         ⟨fun i => if i = cur then
             some { q with
               que := fun j =>
                 if j = ((q.head + q.count).emod (MAXELT : Int)).toNat then n
                 else q.que j,
               count := q.count + 1 }
           else s.queues i, s.noncectr⟩) := by
  rw [put_after_okr, hq]

/-- Unfolding `take_off_queue` to its continuation. -/
lemma take_off_queue_def (s : QState) (qno : Nat) :
    take_off_queue s qno = take_after s (readref s qno) := rfl

lemma take_after_err (s : QState) (e : Int) :
    take_after s (Except.error e) = (e, s) := rfl

lemma take_after_okr (s : QState) (cur : Nat) :
    take_after s (Except.ok cur) =
      match s.queues cur with
      | none => (QE_INTINCON, s)
      | some q =>
        if q.count = 0 then (QE_EMPTY, s)
        else
          (q.que q.head.toNat,
           ⟨fun i => if i = cur then
               some { q with count := q.count - 1, head := (q.head + 1).emod (MAXELT : Int) }
             else s.queues i, s.noncectr⟩) := rfl

lemma take_after_some (s : QState) (cur : Nat) (q : QUEUE)
    (hq : s.queues cur = some q) :
    take_after s (Except.ok cur) =
      if q.count = 0 then (QE_EMPTY, s)
      else
        (q.que q.head.toNat,
         ⟨fun i => if i = cur then
             some { q with count := q.count - 1, head := (q.head + 1).emod (MAXELT : Int) }
           else s.queues i, s.noncectr⟩) := by
  rw [take_after_okr, hq]

/-- Shape of `create_queue`'s result: either the table is untouched
(full table, or mint failure) or the lowest free slot now holds a fresh
queue carrying the minted ticket. -/
lemma create_queue_cases (s : QState) :
    ((create_queue s).2.queues = s.queues ∧
      ∃ e, (create_queue s).1 = Except.error e) ∨
    ∃ cur tkt nn, cur < MAXQ ∧ s.queues cur = none ∧
      (∀ k, k < cur → s.queues k ≠ none) ∧
      qtktref cur s.noncectr = (Except.ok tkt, nn) ∧
      create_queue s =
        (Except.ok tkt,
         ⟨fun i => if i = cur then some (mkQueue tkt) else s.queues i, nn⟩) := by
  rw [create_queue_def]
  by_cases hc : findSlot s.queues 0 MAXQ = MAXQ
  · left
    rw [if_pos hc]
    exact ⟨rfl, QE_TOOMANYQS, rfl⟩
  · rw [if_neg hc]
    have hle := findSlot_le s.queues MAXQ 0
    have hlt : findSlot s.queues 0 MAXQ < MAXQ := by omega
    have hpair : qtktref (findSlot s.queues 0 MAXQ) s.noncectr =
        ((qtktref (findSlot s.queues 0 MAXQ) s.noncectr).1,
         (qtktref (findSlot s.queues 0 MAXQ) s.noncectr).2) := rfl
    cases hm : (qtktref (findSlot s.queues 0 MAXQ) s.noncectr).1 with
    | error e =>
      left
      rw [hm] at hpair
      rw [hpair, create_after_err]
      exact ⟨rfl, e, rfl⟩
    | ok t =>
      right
      rw [hm] at hpair
      refine ⟨findSlot s.queues 0 MAXQ, t,
        (qtktref (findSlot s.queues 0 MAXQ) s.noncectr).2, hlt,
        findSlot_none s.queues MAXQ 0 (by omega), ?_, hpair, ?_⟩
      · intro k hk
        exact findSlot_min s.queues MAXQ 0 k (Nat.zero_le k) hk
      · rw [hpair, create_after_okr]

/-- Shape of `delete_queue`'s result: untouched state on validation
failure, or the validated slot emptied. -/
lemma delete_queue_cases (s : QState) (qno : Nat) :
    (delete_queue s qno).2 = s ∨
    ∃ cur, readref s qno = Except.ok cur ∧
      delete_queue s qno =
        (QE_NONE, ⟨fun i => if i = cur then none else s.queues i, s.noncectr⟩) := by
  rw [delete_queue_def]
  cases hr : readref s qno with
  | error e =>
    left
    rw [delete_after_err]
  | ok cur =>
    right
    exact ⟨cur, rfl, by rw [delete_after_okr]⟩

/-- Shape of `put_on_queue`'s result: untouched state, or the validated
slot's queue extended by one element at `(head + count) % MAXELT`. -/
lemma put_on_queue_cases (s : QState) (qno : Nat) (n : Int) :
    (put_on_queue s qno n).2 = s ∨
    ∃ cur q, readref s qno = Except.ok cur ∧ s.queues cur = some q ∧
      q.count ≠ (MAXELT : Int) ∧
      put_on_queue s qno n =
        (QE_NONE,
         ⟨fun i => if i = cur then
             some { q with
               que := fun j =>
                 if j = ((q.head + q.count).emod (MAXELT : Int)).toNat then n
                 else q.que j,
               count := q.count + 1 }
           else s.queues i, s.noncectr⟩) := by
  rw [put_on_queue_def]
  cases hr : readref s qno with
  | error e =>
    left
    rw [put_after_err]
  | ok cur =>
    cases hq : s.queues cur with
    | none =>
      left
      rw [put_after_okr, hq]
    | some q =>
      by_cases hfull : q.count = (MAXELT : Int)
      · left
        rw [put_after_some s n cur q hq, if_pos hfull]
      · right
        refine ⟨cur, q, rfl, hq, hfull, ?_⟩
        rw [put_after_some s n cur q hq, if_neg hfull]

/-- Shape of `take_off_queue`'s result: untouched state, or the
validated slot's queue shrunk by one with head advanced. -/
lemma take_off_queue_cases (s : QState) (qno : Nat) :
    (take_off_queue s qno).2 = s ∨
    ∃ cur q, readref s qno = Except.ok cur ∧ s.queues cur = some q ∧
      q.count ≠ 0 ∧
      take_off_queue s qno =
        (q.que q.head.toNat,
         ⟨fun i => if i = cur then
             some { q with count := q.count - 1, head := (q.head + 1).emod (MAXELT : Int) }
           else s.queues i, s.noncectr⟩) := by
  rw [take_off_queue_def]
  cases hr : readref s qno with
  | error e =>
    left
    rw [take_after_err]
  | ok cur =>
    cases hq : s.queues cur with
    | none =>
      left
      rw [take_after_okr, hq]
    | some q =>
      by_cases hz : q.count = 0
      · left
        rw [take_after_some s cur q hq, if_pos hz]
      · right
        refine ⟨cur, q, rfl, hq, hz, ?_⟩
        rw [take_after_some s cur q hq, if_neg hz]

lemma tinv_of_queues_eq {s s' : QState} (h : s'.queues = s.queues)
    (hT : TInv s) : TInv s' := by
  intro i q hi
  rw [h] at hi
  exact hT i q hi

lemma tinv_create (s : QState) (hT : TInv s) : TInv (create_queue s).2 := by
  rcases create_queue_cases s with ⟨h, -⟩ | ⟨cur, tkt, nn, hlt, -, -, hm, hcc⟩
  · exact tinv_of_queues_eq h hT
  · intro i q hi
    rw [hcc] at hi
    have hi2 : (if i = cur then some (mkQueue tkt) else s.queues i) = some q := hi
    by_cases hic : i = cur
    · rw [if_pos hic] at hi2
      have hq : q = mkQueue tkt := (Option.some.inj hi2).symm
      subst hic
      refine ⟨hlt, ?_⟩
      rw [hq]
      exact (qtktref_ok_fields hm).2.2
    · rw [if_neg hic] at hi2
      exact hT i q hi2

lemma tinv_delete (s : QState) (qno : Nat) (hT : TInv s) :
    TInv (delete_queue s qno).2 := by
  rcases delete_queue_cases s qno with h | ⟨cur, -, hdd⟩
  · rw [h]; exact hT
  · intro i q hi
    rw [hdd] at hi
    have hi2 : (if i = cur then none else s.queues i) = some q := hi
    by_cases hic : i = cur
    · rw [if_pos hic] at hi2
      exact absurd hi2 (by simp)
    · rw [if_neg hic] at hi2
      exact hT i q hi2

lemma tinv_put (s : QState) (qno : Nat) (n : Int) (hT : TInv s) :
    TInv (put_on_queue s qno n).2 := by
  rcases put_on_queue_cases s qno n with h | ⟨cur, q0, -, hq0, -, hpp⟩
  · rw [h]; exact hT
  · intro i q hi
    rw [hpp] at hi
    have hi2 : (if i = cur then
        some { q0 with
          que := fun j =>
            if j = ((q0.head + q0.count).emod (MAXELT : Int)).toNat then n
            else q0.que j,
          count := q0.count + 1 }
      else s.queues i) = some q := hi
    by_cases hic : i = cur
    · rw [if_pos hic] at hi2
      have hq : q = { q0 with
          que := fun j =>
            if j = ((q0.head + q0.count).emod (MAXELT : Int)).toNat then n
            else q0.que j,
          count := q0.count + 1 } := (Option.some.inj hi2).symm
      subst hic
      have := hT i q0 hq0
      rw [hq]
      exact this
    · rw [if_neg hic] at hi2
      exact hT i q hi2

lemma tinv_take (s : QState) (qno : Nat) (hT : TInv s) :
    TInv (take_off_queue s qno).2 := by
  rcases take_off_queue_cases s qno with h | ⟨cur, q0, -, hq0, -, htt⟩
  · rw [h]; exact hT
  · intro i q hi
    rw [htt] at hi
    have hi2 : (if i = cur then
        some { q0 with count := q0.count - 1, head := (q0.head + 1).emod (MAXELT : Int) }
      else s.queues i) = some q := hi
    by_cases hic : i = cur
    · rw [if_pos hic] at hi2
      have hq : q = { q0 with count := q0.count - 1, head := (q0.head + 1).emod (MAXELT : Int) } :=
        (Option.some.inj hi2).symm
      subst hic
      have := hT i q0 hq0
      rw [hq]
      exact this
    · rw [if_neg hic] at hi2
      exact hT i q hi2

lemma tinv_init : TInv init := by
  intro i q hi
  exact absurd hi (by simp [init])

lemma tinv_steps {s s' : QState} (h : Steps s s') (hT : TInv s) : TInv s' := by
  induction h with
  | refl => exact hT
  | tail _ hstep ih =>
    cases hstep with
    | create => exact tinv_create _ ih
    | delete => exact tinv_delete _ _ ih
    | put => exact tinv_put _ _ _ ih
    | take => exact tinv_take _ _ ih

lemma tinv_reachable {s : QState} (h : Reachable s) : TInv s :=
  tinv_steps h tinv_init

lemma decode_of_high {t i : Nat} (hi : i < MAXQ)
    (hh : t / U16 % U16 = i + IOFFSET) : decodeIndex t = i := by
  unfold decodeIndex
  rw [hh]
  have h0 : IOFFSET ≤ U32 := by decide
  have h1 : i + IOFFSET + (U32 - IOFFSET) = i + U32 := by omega
  rw [h1, Nat.add_mod_right]
  have h2 : MAXQ = 1024 := rfl
  have h3 : U32 = 4294967296 := rfl
  exact Nat.mod_eq_of_lt (by omega)

lemma inv_of_queues_eq {s s' : QState} (h : s'.queues = s.queues)
    (hI : Inv s) : Inv s' := by
  intro i q hi
  rw [h] at hi
  exact hI i q hi

lemma maxelt_int_pos : (0 : Int) < (MAXELT : Int) := by
  have h : MAXELT = 1024 := rfl
  rw [h]
  omega

lemma inv_create (s : QState) (hI : Inv s) : Inv (create_queue s).2 := by
  rcases create_queue_cases s with ⟨h, -⟩ | ⟨cur, tkt, nn, -, -, -, hm, hcc⟩
  · exact inv_of_queues_eq h hI
  · intro i q hi
    rw [hcc] at hi
    have hi2 : (if i = cur then some (mkQueue tkt) else s.queues i) = some q := hi
    by_cases hic : i = cur
    · rw [if_pos hic] at hi2
      have hq : q = mkQueue tkt := (Option.some.inj hi2).symm
      rw [hq]
      refine ⟨le_refl 0, maxelt_int_pos, le_refl 0, le_of_lt maxelt_int_pos, ?_⟩
      exact (qtktref_ok_fields hm).2.1
    · rw [if_neg hic] at hi2
      exact hI i q hi2

lemma inv_delete (s : QState) (qno : Nat) (hI : Inv s) :
    Inv (delete_queue s qno).2 := by
  rcases delete_queue_cases s qno with h | ⟨cur, -, hdd⟩
  · rw [h]; exact hI
  · intro i q hi
    rw [hdd] at hi
    have hi2 : (if i = cur then none else s.queues i) = some q := hi
    by_cases hic : i = cur
    · rw [if_pos hic] at hi2
      exact absurd hi2 (by simp)
    · rw [if_neg hic] at hi2
      exact hI i q hi2

lemma inv_put (s : QState) (qno : Nat) (n : Int) (hI : Inv s) :
    Inv (put_on_queue s qno n).2 := by
  rcases put_on_queue_cases s qno n with h | ⟨cur, q0, hr, hq0, hful, hpp⟩
  · rw [h]; exact hI
  · intro i q hi
    rw [hpp] at hi
    have hi2 : (if i = cur then
        some { q0 with
          que := fun j =>
            if j = ((q0.head + q0.count).emod (MAXELT : Int)).toNat then n
            else q0.que j,
          count := q0.count + 1 }
      else s.queues i) = some q := hi
    by_cases hic : i = cur
    · rw [if_pos hic] at hi2
      have hq : q = { q0 with
          que := fun j =>
            if j = ((q0.head + q0.count).emod (MAXELT : Int)).toNat then n
            else q0.que j,
          count := q0.count + 1 } := (Option.some.inj hi2).symm
      obtain ⟨h1, h2, h3, h4, h5⟩ := hI cur q0 hq0
      rw [hq]
      refine ⟨h1, h2, ?_, ?_, h5⟩
      · show (0 : Int) ≤ q0.count + 1
        omega
      · show q0.count + 1 ≤ (MAXELT : Int)
        omega
    · rw [if_neg hic] at hi2
      exact hI i q hi2

lemma inv_take (s : QState) (qno : Nat) (hI : Inv s) :
    Inv (take_off_queue s qno).2 := by
  rcases take_off_queue_cases s qno with h | ⟨cur, q0, hr, hq0, hnz, htt⟩
  · rw [h]; exact hI
  · intro i q hi
    rw [htt] at hi
    have hi2 : (if i = cur then
        some { q0 with count := q0.count - 1, head := (q0.head + 1).emod (MAXELT : Int) }
      else s.queues i) = some q := hi
    by_cases hic : i = cur
    · rw [if_pos hic] at hi2
      have hq : q = { q0 with count := q0.count - 1, head := (q0.head + 1).emod (MAXELT : Int) } :=
        (Option.some.inj hi2).symm
      obtain ⟨h1, h2, h3, h4, h5⟩ := hI cur q0 hq0
      rw [hq]
      refine ⟨Int.emod_nonneg _ (by omega), Int.emod_lt_of_pos _ maxelt_int_pos, ?_, ?_, h5⟩
      · show (0 : Int) ≤ q0.count - 1
        omega
      · show q0.count - 1 ≤ (MAXELT : Int)
        omega
    · rw [if_neg hic] at hi2
      exact hI i q hi2

lemma inv_init : Inv init := by
  intro i q hi
  exact absurd hi (by simp [init])

/-- C3: on a live queue at capacity (`count = MAXELT`), `put_on_queue`
fails with `QE_TOOFULL` (the spec's `QueueFull`) leaving the whole
state — hence the queue's head, count, and elements — unchanged; on a
live empty queue (`count = 0`), `take_off_queue` fails with `QE_EMPTY`
leaving the state unchanged. -/
theorem claim3_capacity_boundary (s : QState) (t cur : Nat) (q : QUEUE)
    (hr : readref s t = Except.ok cur) (hq : s.queues cur = some q) :
    (q.count = (MAXELT : Int) → ∀ v, put_on_queue s t v = (QE_TOOFULL, s)) ∧
    (q.count = 0 → take_off_queue s t = (QE_EMPTY, s)) := by
  constructor
  · intro hfull v
    rw [put_on_queue_def, hr, put_after_some s v cur q hq, if_pos hfull]
  · intro hz
    rw [take_off_queue_def, hr, take_after_some s cur q hq, if_pos hz]

/-- Witness for C3 at a concrete full queue and a concrete empty one. -/
theorem claim3_witness :
    readref wSFull wT1 = Except.ok 0 ∧
    put_on_queue wSFull wT1 7 = (QE_TOOFULL, wSFull) ∧
    readref wS1 wT1 = Except.ok 0 ∧
    take_off_queue wS1 wT1 = (QE_EMPTY, wS1) :=
  ⟨rfl, (claim3_capacity_boundary wSFull wT1 0 wQFull rfl rfl).1 rfl 7,
   rfl, (claim3_capacity_boundary wS1 wT1 0 (mkQueue wT1) rfl rfl).2 rfl⟩

/-- C7: each public operation, applied to a state whose occupied slots
all satisfy the invariant (`head` in `[0, MAXELT)`, `count` in
`[0, MAXELT]`, non-zero stored generation field), yields a state whose
occupied slots all still satisfy it. -/
theorem claim7_invariant_preservation (s : QState) (hI : Inv s) :
    Inv (create_queue s).2 ∧ (∀ qno, Inv (delete_queue s qno).2) ∧
    (∀ qno n, Inv (put_on_queue s qno n).2) ∧
    (∀ qno, Inv (take_off_queue s qno).2) :=
  ⟨inv_create s hI, fun qno => inv_delete s qno hI,
   fun qno n => inv_put s qno n hI, fun qno => inv_take s qno hI⟩

/-- Witness for C7 at the initial state. -/
theorem claim7_witness :
    Inv init ∧ Inv (create_queue init).2 ∧ Inv (delete_queue init 0).2 :=
  ⟨inv_init, (claim7_invariant_preservation init inv_init).1,
   (claim7_invariant_preservation init inv_init).2.1 0⟩

/-- C8: every `qtktref` call whose argument passes the initial
index-range check (`index > MAXQ` in the source, so `index ≤ MAXQ`
passes) advances `noncectr` by exactly one (as the C `unsigned int`
post-increment: mod `2 ^ 32`), including the calls that return
`QE_INTINCON` because the computed generation field overflows 16 bits
or equals the reserved zero value. -/
theorem claim8_mint_always_increments (idx n : Nat) (h : idx ≤ MAXQ) :
    (qtktref idx n).2 = (n + 1) % U32 :=
  qtktref_snd n h

/-- Witness for C8 on a rejected-generation call: at `noncectr = 64254`
the computed nonce overflows 16 bits, the mint fails, and the counter
still advances to 64255. -/
theorem claim8_witness :
    (0 : Nat) ≤ MAXQ ∧ (qtktref 0 64254).1 = Except.error QE_INTINCON ∧
    (qtktref 0 64254).2 = 64255 :=
  ⟨Nat.zero_le MAXQ, rfl, by
    have h2 := claim8_mint_always_increments 0 64254 (Nat.zero_le MAXQ)
    rw [h2]
    decide⟩

/-- C6: whenever `create_queue` succeeds, the slot it occupies (the one
its returned handle decodes to) is the minimal empty index: it was empty
and every smaller index was occupied, and no other slot changed; and on
a table with every slot below `MAXQ` occupied, `create_queue` fails with
`QE_TOOMANYQS` leaving the state unchanged. -/
theorem claim6_lowest_index (s : QState) :
    ((∀ i, i < MAXQ → s.queues i ≠ none) →
      create_queue s = (Except.error QE_TOOMANYQS, s)) ∧
    (∀ h s1, create_queue s = (Except.ok h, s1) →
      decodeIndex h < MAXQ ∧ s.queues (decodeIndex h) = none ∧
      (∀ k, k < decodeIndex h → s.queues k ≠ none) ∧
      s1.queues (decodeIndex h) = some (mkQueue h) ∧
      (∀ j, j ≠ decodeIndex h → s1.queues j = s.queues j)) := by
  constructor
  · intro hocc
    have hc : findSlot s.queues 0 MAXQ = MAXQ := by
      by_contra hne
      have hle := findSlot_le s.queues MAXQ 0
      have hlt : findSlot s.queues 0 MAXQ < MAXQ := by omega
      exact hocc _ hlt (findSlot_none s.queues MAXQ 0 (by omega))
    rw [create_queue_def, if_pos hc]
  · intro h s1 hcq
    rcases create_queue_cases s with ⟨-, e, he⟩ | ⟨cur, tkt, nn, hlt, hnone, hmin, hm, hcc⟩
    · rw [hcq] at he
      exact absurd he (by simp)
    · rw [hcc] at hcq
      obtain ⟨h1, h2⟩ := Prod.mk.injEq .. ▸ hcq
      have htkt : tkt = h := Except.ok.inj h1
      have hdec : decodeIndex h = cur := by
        rw [← htkt]
        exact decode_of_high hlt (qtktref_ok_fields hm).2.2
      rw [hdec]
      subst htkt
      refine ⟨hlt, hnone, hmin, ?_, ?_⟩
      · rw [← h2]
        show (if cur = cur then some (mkQueue tkt) else s.queues cur) = some (mkQueue tkt)
        rw [if_pos rfl]
      · intro j hj
        rw [← h2]
        show (if j = cur then some (mkQueue tkt) else s.queues j) = s.queues j
        rw [if_neg hj]

/-- Witness for C6: a full table rejects creation; from the initial
state the first create occupies slot 0. -/
theorem claim6_witness :
    create_queue wSAllFull = (Except.error QE_TOOMANYQS, wSAllFull) ∧
    decodeIndex wT1 < MAXQ ∧ init.queues (decodeIndex wT1) = none ∧
    wS1.queues (decodeIndex wT1) = some (mkQueue wT1) :=
  ⟨(claim6_lowest_index wSAllFull).1 (by
      intro i hi hn
      rw [show wSAllFull.queues i = if i < MAXQ then some (mkQueue wT1) else none from rfl,
        if_pos hi] at hn
      exact Option.noConfusion hn),
   ((claim6_lowest_index init).2 wT1 wS1 rfl).1,
   ((claim6_lowest_index init).2 wT1 wS1 rfl).2.1,
   ((claim6_lowest_index init).2 wT1 wS1 rfl).2.2.2.1⟩

/-- C9: a successful `take_off_queue` returns the dequeued element in
the same `int` channel used for error codes, so whenever the head
element is negative the "successful" return value satisfies
`QE_ISERROR`; concretely, dequeuing a stored `-3` is indistinguishable
by return value from a `QE_BADTICKET` failure: two runs, one successful
(mutating the queue) and one failing (state unchanged), return the
identical value. -/
theorem claim9_error_channel_aliasing :
    (∀ (s : QState) (qno cur : Nat) (q : QUEUE),
      readref s qno = Except.ok cur → s.queues cur = some q →
      q.count ≠ 0 → q.que q.head.toNat < 0 →
      QE_ISERROR (take_off_queue s qno).1 = true) ∧
    ((take_off_queue wSNeg wT1).1 = (take_off_queue init 0).1 ∧
     (take_off_queue wSNeg wT1).1 = QE_BADTICKET ∧
     QE_ISERROR (take_off_queue wSNeg wT1).1 = true ∧
     (take_off_queue wSNeg wT1).2 ≠ wSNeg ∧
     (take_off_queue init 0).2 = init ∧
     Reachable wSNeg) := by
  constructor
  · intro s qno cur q hr hq hnz hneg
    rw [take_off_queue_def, hr, take_after_some s cur q hq, if_neg hnz]
    show QE_ISERROR (q.que q.head.toNat) = true
    simp only [QE_ISERROR, decide_eq_true_eq]
    exact hneg
  · refine ⟨rfl, rfl, rfl, ?_, rfl, ?_⟩
    · intro h
      have h2 := congrArg (fun st => Option.map QUEUE.count (st.queues 0)) h
      exact absurd h2 (by decide)
    · have s1 : Step init wS1 := Step.create init
      have s2 : Step wS1 wSNeg := Step.put wS1 wT1 (-3)
      exact Relation.ReflTransGen.tail (Relation.ReflTransGen.single s1) s2

/-- Witness for C9's universal part at the concrete state whose queue
head holds `-3`. -/
theorem claim9_witness :
    readref wSNeg wT1 = Except.ok 0 ∧ wSNeg.queues 0 = some wQNeg ∧
    wQNeg.count ≠ 0 ∧ wQNeg.que wQNeg.head.toNat < 0 ∧
    QE_ISERROR (take_off_queue wSNeg wT1).1 = true :=
  ⟨rfl, rfl, by decide, by decide,
   (claim9_error_channel_aliasing).1 wSNeg wT1 0 wQNeg rfl rfl (by decide) (by decide)⟩

/-- C5: in every reachable state, the stored tickets of two distinct
occupied slots are distinct, and in particular never decode to the same
slot index with the same generation field. -/
theorem claim5_handle_uniqueness (s : QState) (hs : Reachable s) :
    ∀ i j qi qj, s.queues i = some qi → s.queues j = some qj → i ≠ j →
      qi.ticket ≠ qj.ticket ∧
      ¬(decodeIndex qi.ticket = decodeIndex qj.ticket ∧
        qi.ticket % U16 = qj.ticket % U16) := by
  intro i j qi qj hi hj hne
  have hT := tinv_reachable hs
  obtain ⟨hiM, hihigh⟩ := hT i qi hi
  obtain ⟨hjM, hjhigh⟩ := hT j qj hj
  have hdi : decodeIndex qi.ticket = i := decode_of_high hiM hihigh
  have hdj : decodeIndex qj.ticket = j := decode_of_high hjM hjhigh
  constructor
  · intro heq
    exact hne (by rw [← hdi, ← hdj, heq])
  · rintro ⟨hidx, -⟩
    rw [hdi, hdj] at hidx
    exact hne hidx

/-- Witness for C5: two live queues created from the initial state. -/
theorem claim5_witness :
    Reachable wS2 ∧ wS2.queues 0 = some (mkQueue wT1) ∧
    wS2.queues 1 = some (mkQueue wT2) ∧
    (mkQueue wT1).ticket ≠ (mkQueue wT2).ticket := by
  have hreach : Reachable wS2 :=
    Relation.ReflTransGen.tail (Relation.ReflTransGen.single (Step.create init))
      (Step.create wS1)
  exact ⟨hreach, rfl, rfl,
    (claim5_handle_uniqueness wS2 hreach 0 1 (mkQueue wT1) (mkQueue wT2) rfl rfl
      (by decide)).1⟩

/-- C4 corrected: the source checks run in order, so a ticket mismatch
is reported as `QE_BADTICKET` even when the slot's head/count are also
out of bounds; `QE_INTINCON` is reached exactly by handles that pass the
index/occupancy/match checks and hit corrupted head/count bounds or a
zero stored generation field.  On every validation failure the three
ticket-consuming operations leave the state unchanged. -/
theorem claim4_readref_characterization (s : QState) (qno : Nat) :
    (readref s qno = Except.error QE_BADTICKET ↔
      MAXQ ≤ decodeIndex qno ∨ s.queues (decodeIndex qno) = none ∨
      (∃ q, s.queues (decodeIndex qno) = some q ∧ q.ticket ≠ qno)) ∧
    (readref s qno = Except.error QE_INTINCON ↔
      decodeIndex qno < MAXQ ∧
      ∃ q, s.queues (decodeIndex qno) = some q ∧ q.ticket = qno ∧
        (q.head < 0 ∨ (MAXELT : Int) ≤ q.head ∨ q.count < 0 ∨
          (MAXELT : Int) < q.count ∨ q.ticket % U16 = 0)) ∧
    (∀ e, readref s qno = Except.error e →
      (delete_queue s qno).2 = s ∧ (∀ n, (put_on_queue s qno n).2 = s) ∧
      (take_off_queue s qno).2 = s) := by
  refine ⟨?_, ?_, ?_⟩
  · constructor
    · intro h
      rcases readref_cases s qno with ⟨h1, he⟩ | ⟨h1, hq, he⟩ | ⟨q, h1, hq, h2, he⟩ |
        ⟨q, h1, hq, h2, h3, he⟩ | ⟨q, h1, hq, h2, h3a, h3b, h3c, h3d, h4, he⟩ |
        ⟨q, h1, hq, h2, h3a, h3b, h3c, h3d, h4, he⟩
      · exact Or.inl h1
      · exact Or.inr (Or.inl hq)
      · exact Or.inr (Or.inr ⟨q, hq, h2⟩)
      · rw [he] at h
        have := Except.error.inj h
        exact absurd this (by decide)
      · rw [he] at h
        have := Except.error.inj h
        exact absurd this (by decide)
      · rw [he] at h
        exact absurd h (by simp)
    · intro h
      rcases readref_cases s qno with ⟨h1, he⟩ | ⟨h1, hq, he⟩ | ⟨q, h1, hq, h2, he⟩ |
        ⟨q, h1, hq, h2, h3, he⟩ | ⟨q, h1, hq, h2, h3a, h3b, h3c, h3d, h4, he⟩ |
        ⟨q, h1, hq, h2, h3a, h3b, h3c, h3d, h4, he⟩
      · rcases h with h | h | ⟨q, hq, -⟩
        · exact he
        · exact he
        · exact he
      · exact he
      · exact he
      · rcases h with h | h | ⟨q2, hq2, hne⟩
        · omega
        · rw [hq] at h
          exact absurd h (by simp)
        · rw [hq] at hq2
          have heq := Option.some.inj hq2
          subst heq
          exact absurd h2 hne
      · rcases h with h | h | ⟨q2, hq2, hne⟩
        · omega
        · rw [hq] at h
          exact absurd h (by simp)
        · rw [hq] at hq2
          have := Option.some.inj hq2
          subst this
          exact absurd h2 hne
      · rcases h with h | h | ⟨q2, hq2, hne⟩
        · omega
        · rw [hq] at h
          exact absurd h (by simp)
        · rw [hq] at hq2
          have := Option.some.inj hq2
          subst this
          exact absurd h2 hne
  · constructor
    · intro h
      rcases readref_cases s qno with ⟨h1, he⟩ | ⟨h1, hq, he⟩ | ⟨q, h1, hq, h2, he⟩ |
        ⟨q, h1, hq, h2, h3, he⟩ | ⟨q, h1, hq, h2, h3a, h3b, h3c, h3d, h4, he⟩ |
        ⟨q, h1, hq, h2, h3a, h3b, h3c, h3d, h4, he⟩
      · rw [he] at h
        exact absurd (Except.error.inj h) (by decide)
      · rw [he] at h
        exact absurd (Except.error.inj h) (by decide)
      · rw [he] at h
        exact absurd (Except.error.inj h) (by decide)
      · rcases h3 with h3 | h3 | h3 | h3
        · exact ⟨h1, q, hq, h2, Or.inl h3⟩
        · exact ⟨h1, q, hq, h2, Or.inr (Or.inl h3)⟩
        · exact ⟨h1, q, hq, h2, Or.inr (Or.inr (Or.inl h3))⟩
        · exact ⟨h1, q, hq, h2, Or.inr (Or.inr (Or.inr (Or.inl h3)))⟩
      · exact ⟨h1, q, hq, h2, Or.inr (Or.inr (Or.inr (Or.inr h4)))⟩
      · rw [he] at h
        exact absurd h (by simp)
    · intro ⟨h1, q, hq, ht, hbad⟩
      rcases readref_cases s qno with ⟨h1', he⟩ | ⟨h1', hq', he⟩ | ⟨q2, h1', hq', h2', he⟩ |
        ⟨q2, h1', hq', h2', h3', he⟩ | ⟨q2, h1', hq', h2', h3a', h3b', h3c', h3d', h4', he⟩ |
        ⟨q2, h1', hq', h2', h3a', h3b', h3c', h3d', h4', he⟩
      · omega
      · rw [hq] at hq'
        exact absurd hq' (by simp)
      · rw [hq] at hq'
        have := Option.some.inj hq'
        subst this
        exact absurd ht h2'
      · exact he
      · exact he
      · rw [hq] at hq'
        have := Option.some.inj hq'
        subst this
        rcases hbad with h | h | h | h | h
        · omega
        · omega
        · omega
        · omega
        · exact absurd h h4'
  · intro e he
    refine ⟨?_, ?_, ?_⟩
    · rw [delete_queue_def, he, delete_after_err]
    · intro n
      rw [put_on_queue_def, he, put_after_err]
    · rw [take_off_queue_def, he, take_after_err]

/-- Counterexample to C4 as stated: on a corrupted state whose occupied
slot 0 has `head = MAXELT` (out of bounds) but whose stored ticket also
differs from the presented handle, `readref` reports `QE_BADTICKET`
(the match check runs first), while the claim's "`QE_INTINCON` exactly
when head/count violate their bounds" demands `QE_INTINCON`. -/
theorem claim4_counterexample : ¬ C4Statement := by
  intro hC
  have h := (hC sBadC4 wT1b (by decide)).2
  have hmem : readref sBadC4 wT1b = Except.error QE_INTINCON :=
    h.mpr ⟨qBadC4, rfl, Or.inr (Or.inl (by decide))⟩
  have hcomp : readref sBadC4 wT1b = Except.error QE_BADTICKET := rfl
  rw [hmem] at hcomp
  exact absurd (Except.error.inj hcomp) (by decide)

/-- Witness for the corrected C4 at concrete inputs. -/
theorem claim4_witness :
    readref init 0 = Except.error QE_BADTICKET ∧ (delete_queue init 0).2 = init ∧
    (put_on_queue init 0 5).2 = init ∧ (take_off_queue init 0).2 = init :=
  ⟨(claim4_readref_characterization init 0).1.mpr (Or.inl (by decide)),
   ((claim4_readref_characterization init 0).2.2 QE_BADTICKET rfl).1,
   ((claim4_readref_characterization init 0).2.2 QE_BADTICKET rfl).2.1 5,
   ((claim4_readref_characterization init 0).2.2 QE_BADTICKET rfl).2.2⟩

lemma putList_nil (t : Nat) (s : QState) : putList t s [] = ([], s) := rfl

lemma putList_cons (t : Nat) (s : QState) (v : Int) (vs : List Int) :
    putList t s (v :: vs) =
      ((put_on_queue s t v).1 :: (putList t (put_on_queue s t v).2 vs).1,
       (putList t (put_on_queue s t v).2 vs).2) := rfl

lemma takeList_zero (t : Nat) (s : QState) : takeList t s 0 = ([], s) := rfl

lemma takeList_succ (t : Nat) (s : QState) (n : Nat) :
    takeList t s (n + 1) =
      ((take_off_queue s t).1 :: (takeList t (take_off_queue s t).2 n).1,
       (takeList t (take_off_queue s t).2 n).2) := rfl

/-- Converting the `Int` ring index `(a + b) % MAXELT` to `Nat`. -/
lemma emod_toNat (a : Int) (b : Nat) (ha : 0 ≤ a) :
    ((a + (b : Int)).emod (MAXELT : Int)).toNat = (a.toNat + b) % MAXELT := by
  conv_lhs => rw [← Int.toNat_of_nonneg ha]
  norm_cast

/-- Cancellation for ring-buffer positions: equal cells within one
window have equal offsets. -/
lemma ring_pos_inj {h k l : Nat} (hk : k < MAXELT) (hl : l < MAXELT)
    (he : (h + k) % MAXELT = (h + l) % MAXELT) : k = l := by
  have hmod : k % MAXELT = l % MAXELT := Nat.ModEq.add_left_cancel' h he
  rwa [Nat.mod_eq_of_lt hk, Nat.mod_eq_of_lt hl] at hmod

/-- One successful push: on a live queue representing `L` with room
left, `put_on_queue` returns `QE_NONE` and the slot then represents
`L ++ [v]`, still validating under the same handle. -/
lemma put_step (s : QState) (t cur : Nat) (q : QUEUE) (L : List Int) (v : Int)
    (hr : readref s t = Except.ok cur) (hq : s.queues cur = some q)
    (hrep : Rep q L) (hlen : L.length < MAXELT) :
    (put_on_queue s t v).1 = QE_NONE ∧
    ∃ q2, (put_on_queue s t v).2.queues cur = some q2 ∧
      readref (put_on_queue s t v).2 t = Except.ok cur ∧ Rep q2 (L ++ [v]) := by
  obtain ⟨hh0, hh1, hcnt, hlM, hcell⟩ := hrep
  have hfull : q.count ≠ (MAXELT : Int) := by
    rw [hcnt]
    intro hx
    have hx2 : L.length = MAXELT := by exact_mod_cast hx
    omega
  have hres : put_on_queue s t v =
      (QE_NONE,
       ⟨fun i => if i = cur then
           some { q with
             que := fun j =>
               if j = ((q.head + q.count).emod (MAXELT : Int)).toNat then v
               else q.que j,
             count := q.count + 1 }
         else s.queues i, s.noncectr⟩) := by
    rw [put_on_queue_def, hr, put_after_some s v cur q hq, if_neg hfull]
  have hposN : ((q.head + q.count).emod (MAXELT : Int)).toNat =
      (q.head.toNat + L.length) % MAXELT := by
    rw [hcnt]
    exact emod_toNat q.head L.length hh0
  obtain ⟨hdec, hM, q', hq', ht', hb1, hb2, hb3, hb4, hb5⟩ := (readref_ok_iff s t cur).mp hr
  rw [hdec] at hq'
  rw [hq] at hq'
  have hqq : q' = q := (Option.some.inj hq').symm
  rw [hqq] at ht' hb5
  refine ⟨by rw [hres], { q with
      que := fun j =>
        if j = ((q.head + q.count).emod (MAXELT : Int)).toNat then v
        else q.que j,
      count := q.count + 1 }, ?_, ?_, ?_⟩
  · rw [hres]
    show (if cur = cur then _ else s.queues cur) = _
    rw [if_pos rfl]
  · rw [readref_ok_iff]
    refine ⟨hdec, hM, { q with
        que := fun j =>
          if j = ((q.head + q.count).emod (MAXELT : Int)).toNat then v
          else q.que j,
        count := q.count + 1 }, ?_, ht', hh0, hh1, ?_, ?_, hb5⟩
    · rw [hres, hdec]
      show (if cur = cur then _ else s.queues cur) = _
      rw [if_pos rfl]
    · show (0 : Int) ≤ q.count + 1
      omega
    · show q.count + 1 ≤ (MAXELT : Int)
      rw [hcnt]
      have hc : ((L.length : Int) + 1) = ((L.length + 1 : Nat) : Int) := by push_cast; ring
      rw [hc]
      exact_mod_cast hlen
  · refine ⟨hh0, hh1, ?_, ?_, ?_⟩
    · show q.count + 1 = ((L ++ [v]).length : Int)
      rw [hcnt]
      have hl : (L ++ [v]).length = L.length + 1 := by simp
      rw [hl]
      push_cast
      ring
    · rw [List.length_append]
      simp only [List.length_cons, List.length_nil]
      omega
    · intro k hk
      have hklt : k < L.length + 1 := by
        rw [List.length_append] at hk
        simpa using hk
      show (if (q.head.toNat + k) % MAXELT =
          ((q.head + q.count).emod (MAXELT : Int)).toNat then v
        else q.que ((q.head.toNat + k) % MAXELT)) = (L ++ [v]).get ⟨k, hk⟩
      rw [hposN]
      by_cases hkl : k = L.length
      · subst hkl
        rw [if_pos rfl, List.get_eq_getElem]
        exact (List.getElem_concat_length L v _ rfl _).symm
      · have hkm : k < L.length := by omega
        rw [if_neg (fun he => hkl (ring_pos_inj (by omega) hlen he))]
        rw [List.get_eq_getElem]
        rw [List.getElem_append_left hkm]
        rw [← List.get_eq_getElem L ⟨k, hkm⟩]
        exact hcell k hkm

/-- One pop: on a live queue representing `x :: L`, `take_off_queue`
returns `x` and the slot then represents `L`, still validating under
the same handle. -/
lemma take_step (s : QState) (t cur : Nat) (q : QUEUE) (x : Int) (L : List Int)
    (hr : readref s t = Except.ok cur) (hq : s.queues cur = some q)
    (hrep : Rep q (x :: L)) :
    (take_off_queue s t).1 = x ∧
    ∃ q2, (take_off_queue s t).2.queues cur = some q2 ∧
      readref (take_off_queue s t).2 t = Except.ok cur ∧ Rep q2 L := by
  obtain ⟨hh0, hh1, hcnt, hlM, hcell⟩ := hrep
  have hlen1 : (x :: L).length = L.length + 1 := by simp
  have hnz : q.count ≠ 0 := by
    rw [hcnt, hlen1]
    exact_mod_cast Nat.succ_ne_zero L.length
  have hres : take_off_queue s t =
      (q.que q.head.toNat,
       ⟨fun i => if i = cur then
           some { q with count := q.count - 1, head := (q.head + 1).emod (MAXELT : Int) }
         else s.queues i, s.noncectr⟩) := by
    rw [take_off_queue_def, hr, take_after_some s cur q hq, if_neg hnz]
  have hheadlt : q.head.toNat < MAXELT := by
    have hM : ((MAXELT : Nat) : Int) = 1024 := by decide
    omega
  have hhd2 : ((q.head + 1).emod (MAXELT : Int)).toNat = (q.head.toNat + 1) % MAXELT := by
    have h1 := emod_toNat q.head 1 hh0
    exact_mod_cast h1
  obtain ⟨hdec, hM, q', hq', ht', hb1, hb2, hb3, hb4, hb5⟩ := (readref_ok_iff s t cur).mp hr
  rw [hdec] at hq'
  rw [hq] at hq'
  have hqq : q' = q := (Option.some.inj hq').symm
  rw [hqq] at ht' hb5
  constructor
  · rw [hres]
    have h0 := hcell 0 (by simp)
    rw [Nat.add_zero, Nat.mod_eq_of_lt hheadlt] at h0
    exact h0
  · refine ⟨{ q with count := q.count - 1, head := (q.head + 1).emod (MAXELT : Int) },
      ?_, ?_, ?_⟩
    · rw [hres]
      show (if cur = cur then _ else s.queues cur) = _
      rw [if_pos rfl]
    · rw [readref_ok_iff]
      refine ⟨hdec, hM,
        { q with count := q.count - 1, head := (q.head + 1).emod (MAXELT : Int) },
        ?_, ht', ?_, ?_, ?_, ?_, hb5⟩
      · rw [hres, hdec]
        show (if cur = cur then _ else s.queues cur) = _
        rw [if_pos rfl]
      · exact Int.emod_nonneg _ (by omega)
      · exact Int.emod_lt_of_pos _ maxelt_int_pos
      · show (0 : Int) ≤ q.count - 1
        rw [hcnt, hlen1]
        push_cast
        omega
      · show q.count - 1 ≤ (MAXELT : Int)
        omega
    · refine ⟨Int.emod_nonneg _ (by omega), Int.emod_lt_of_pos _ maxelt_int_pos, ?_, ?_, ?_⟩
      · show q.count - 1 = (L.length : Int)
        rw [hcnt, hlen1]
        push_cast
        ring
      · rw [hlen1] at hlM
        omega
      · intro k hk
        show q.que ((((q.head + 1).emod (MAXELT : Int)).toNat + k) % MAXELT) =
          L.get ⟨k, hk⟩
        rw [hhd2, Nat.mod_add_mod]
        have hstep := hcell (k + 1) (by rw [hlen1]; omega)
        rw [show q.head.toNat + 1 + k = q.head.toNat + (k + 1) by omega]
        exact hstep

/-- Pushing a list of values onto a live queue representing `L`, with
room for all of them: every push returns `QE_NONE` and the slot ends up
representing `L ++ vs`. -/
lemma putList_spec :
    ∀ (vs : List Int) (s : QState) (t cur : Nat) (q : QUEUE) (L : List Int),
    readref s t = Except.ok cur → s.queues cur = some q → Rep q L →
    L.length + vs.length ≤ MAXELT →
    (putList t s vs).1 = List.replicate vs.length QE_NONE ∧
    ∃ q2, (putList t s vs).2.queues cur = some q2 ∧
      readref (putList t s vs).2 t = Except.ok cur ∧ Rep q2 (L ++ vs) := by
  intro vs
  induction vs with
  | nil =>
    intro s t cur q L hr hq hrep hlen
    rw [putList_nil]
    exact ⟨rfl, q, hq, hr, by rw [List.append_nil]; exact hrep⟩
  | cons v vs ih =>
    intro s t cur q L hr hq hrep hlen
    have hvslen : (v :: vs).length = vs.length + 1 := by simp
    obtain ⟨h1, q2, hq2, hr2, hrep2⟩ :=
      put_step s t cur q L v hr hq hrep (by rw [hvslen] at hlen; omega)
    have hlen2 : (L ++ [v]).length + vs.length ≤ MAXELT := by
      rw [List.length_append]
      simp only [List.length_cons, List.length_nil]
      rw [hvslen] at hlen
      omega
    obtain ⟨ih1, q3, hq3, hr3, hrep3⟩ :=
      ih (put_on_queue s t v).2 t cur q2 (L ++ [v]) hr2 hq2 hrep2 hlen2
    refine ⟨?_, q3, ?_, ?_, ?_⟩
    · rw [putList_cons, hvslen, List.replicate_succ, h1, ih1]
    · rw [putList_cons]
      exact hq3
    · rw [putList_cons]
      exact hr3
    · have hassoc : L ++ [v] ++ vs = L ++ (v :: vs) := by simp
      rw [← hassoc]
      exact hrep3

/-- Popping as many elements as a live queue representing `L` holds
returns exactly `L` in order. -/
lemma takeList_spec :
    ∀ (L : List Int) (s : QState) (t cur : Nat) (q : QUEUE),
    readref s t = Except.ok cur → s.queues cur = some q → Rep q L →
    (takeList t s L.length).1 = L := by
  intro L
  induction L with
  | nil =>
    intro s t cur q hr hq hrep
    rw [List.length_nil, takeList_zero]
  | cons x L ih =>
    intro s t cur q hr hq hrep
    obtain ⟨h1, q2, hq2, hr2, hrep2⟩ := take_step s t cur q x L hr hq hrep
    rw [List.length_cons, takeList_succ, h1]
    rw [ih (take_off_queue s t).2 t cur q2 hr2 hq2 hrep2]

/-- C2: on a live empty queue, `n` successful pushes of `v1, …, vn`
(`0 < n ≤ MAXELT`) followed by `n` pops return exactly `v1, …, vn` in
FIFO order; moreover each push writes at `(head + count) % MAXELT` and
increments `count`, and each pop reads at `head`, advances
`head = (head + 1) % MAXELT`, and decrements `count`. -/
theorem claim2_fifo :
    (∀ (s : QState) (t cur : Nat) (q : QUEUE) (vs : List Int),
      readref s t = Except.ok cur → s.queues cur = some q → q.count = 0 →
      0 < vs.length → vs.length ≤ MAXELT →
      (putList t s vs).1 = List.replicate vs.length QE_NONE ∧
      (takeList t (putList t s vs).2 vs.length).1 = vs) ∧
    (∀ (s : QState) (t cur : Nat) (q : QUEUE) (v : Int),
      readref s t = Except.ok cur → s.queues cur = some q →
      q.count ≠ (MAXELT : Int) →
      put_on_queue s t v =
        (QE_NONE,
         ⟨fun i => if i = cur then
             some { q with
               que := fun j =>
                 if j = ((q.head + q.count).emod (MAXELT : Int)).toNat then v
                 else q.que j,
               count := q.count + 1 }
           else s.queues i, s.noncectr⟩)) ∧
    (∀ (s : QState) (t cur : Nat) (q : QUEUE),
      readref s t = Except.ok cur → s.queues cur = some q → q.count ≠ 0 →
      take_off_queue s t =
        (q.que q.head.toNat,
         ⟨fun i => if i = cur then
             some { q with count := q.count - 1, head := (q.head + 1).emod (MAXELT : Int) }
           else s.queues i, s.noncectr⟩)) := by
  refine ⟨?_, ?_, ?_⟩
  · intro s t cur q vs hr hq hcnt hpos hlen
    obtain ⟨hdec, hM, q', hq', ht', hb1, hb2, hb3, hb4, hb5⟩ := (readref_ok_iff s t cur).mp hr
    rw [hdec] at hq'
    rw [hq] at hq'
    have hqq : q' = q := (Option.some.inj hq').symm
    rw [hqq] at hb1 hb2
    have hrep : Rep q [] := by
      refine ⟨hb1, hb2, ?_, by simp [MAXELT], fun k hk => absurd hk (by simp)⟩
      rw [hcnt]
      simp
    obtain ⟨h1, q2, hq2, hr2, hrep2⟩ :=
      putList_spec vs s t cur q [] hr hq hrep (by simpa using hlen)
    refine ⟨h1, ?_⟩
    have htake := takeList_spec vs (putList t s vs).2 t cur q2 hr2 hq2 (by simpa using hrep2)
    exact htake
  · intro s t cur q v hr hq hfull
    rw [put_on_queue_def, hr, put_after_some s v cur q hq, if_neg hfull]
  · intro s t cur q hr hq hnz
    rw [take_off_queue_def, hr, take_after_some s cur q hq, if_neg hnz]

/-- Witness for C2: pushing `[5, 7]` on the freshly created queue and
popping twice returns `[5, 7]`. -/
theorem claim2_witness :
    readref wS1 wT1 = Except.ok 0 ∧ (mkQueue wT1).count = 0 ∧
    (putList wT1 wS1 [5, 7]).1 = List.replicate 2 QE_NONE ∧
    (takeList wT1 (putList wT1 wS1 [5, 7]).2 2).1 = [5, 7] :=
  ⟨rfl, rfl,
   (claim2_fifo.1 wS1 wT1 0 (mkQueue wT1) [5, 7] rfl rfl rfl (by decide) (by decide)).1,
   (claim2_fifo.1 wS1 wT1 0 (mkQueue wT1) [5, 7] rfl rfl rfl (by decide) (by decide)).2⟩

lemma findSlot_empty (n : Nat) : findSlot (emptyTable n).queues 0 MAXQ = 0 := rfl

/-- One `create_queue` attempt on an all-empty table, followed by
`delete_queue` when it succeeded, leaves the table empty and advances
the nonce counter by exactly one (mod `2 ^ 32`). -/
lemma advance_empty (n : Nat) :
    Steps (emptyTable n) (emptyTable ((n + 1) % U32)) := by
  by_cases hS : (n + NOFFSET) % U32 < U16 ∧ (n + NOFFSET) % U32 ≠ 0
  · -- the mint succeeds: create then delete
    have hcre : create_queue (emptyTable n) =
        (Except.ok ((0 + IOFFSET) * U16 + (n + NOFFSET) % U32),
         ⟨fun i => if i = 0 then
             some (mkQueue ((0 + IOFFSET) * U16 + (n + NOFFSET) % U32))
           else (emptyTable n).queues i, (n + 1) % U32⟩) := by
      rw [create_queue_def, findSlot_empty, if_neg (by decide)]
      rw [show (emptyTable n).noncectr = n from rfl,
        qtktref_ok_intro (Nat.zero_le MAXQ) hS.1 hS.2, create_after_okr]
    have hs1 : (create_queue (emptyTable n)).2 =
        (⟨fun i => if i = 0 then
            some (mkQueue ((0 + IOFFSET) * U16 + (n + NOFFSET) % U32))
          else (emptyTable n).queues i, (n + 1) % U32⟩ : QState) :=
      congrArg Prod.snd hcre
    have hrr : readref
        (⟨fun i => if i = 0 then
            some (mkQueue ((0 + IOFFSET) * U16 + (n + NOFFSET) % U32))
          else (emptyTable n).queues i, (n + 1) % U32⟩ : QState)
        ((0 + IOFFSET) * U16 + (n + NOFFSET) % U32) = Except.ok 0 := by
      rw [readref_ok_iff]
      have hdec : decodeIndex ((0 + IOFFSET) * U16 + (n + NOFFSET) % U32) = 0 :=
        decodeIndex_pack 0 _ (by decide) (by decide) hS.1
      rw [hdec]
      refine ⟨rfl, by decide,
        mkQueue ((0 + IOFFSET) * U16 + (n + NOFFSET) % U32), ?_, rfl,
        le_refl 0, maxelt_int_pos, le_refl 0, le_of_lt maxelt_int_pos, ?_⟩
      · show (if (0 : Nat) = 0 then
            some (mkQueue ((0 + IOFFSET) * U16 + (n + NOFFSET) % U32))
          else (emptyTable n).queues 0) =
          some (mkQueue ((0 + IOFFSET) * U16 + (n + NOFFSET) % U32))
        rw [if_pos rfl]
      · show ((0 + IOFFSET) * U16 + (n + NOFFSET) % U32) % U16 ≠ 0
        rw [pack_mod _ _ hS.1]
        exact hS.2
    have hdel : (delete_queue
        (⟨fun i => if i = 0 then
            some (mkQueue ((0 + IOFFSET) * U16 + (n + NOFFSET) % U32))
          else (emptyTable n).queues i, (n + 1) % U32⟩ : QState)
        ((0 + IOFFSET) * U16 + (n + NOFFSET) % U32)).2 =
        emptyTable ((n + 1) % U32) := by
      rw [delete_queue_def, hrr, delete_after_okr]
      apply QState.ext
      · funext i
        by_cases hi : i = 0
        · rw [hi]
          show (if (0 : Nat) = 0 then none
            else (if (0 : Nat) = 0 then
              some (mkQueue ((0 + IOFFSET) * U16 + (n + NOFFSET) % U32))
            else (emptyTable n).queues 0)) = none
          rw [if_pos rfl]
        · show (if i = 0 then none else
            (if i = 0 then
              some (mkQueue ((0 + IOFFSET) * U16 + (n + NOFFSET) % U32))
            else (emptyTable n).queues i)) = none
          rw [if_neg hi, if_neg hi]
          rfl
      · rfl
    have hstep1 : Step (emptyTable n)
        (⟨fun i => if i = 0 then
            some (mkQueue ((0 + IOFFSET) * U16 + (n + NOFFSET) % U32))
          else (emptyTable n).queues i, (n + 1) % U32⟩ : QState) := by
      rw [← hs1]
      exact Step.create (emptyTable n)
    have hstep2 : Step
        (⟨fun i => if i = 0 then
            some (mkQueue ((0 + IOFFSET) * U16 + (n + NOFFSET) % U32))
          else (emptyTable n).queues i, (n + 1) % U32⟩ : QState)
        (emptyTable ((n + 1) % U32)) := by
      rw [← hdel]
      exact Step.delete _ _
    exact Relation.ReflTransGen.tail (Relation.ReflTransGen.single hstep1) hstep2
  · -- the mint fails: the failed create still advances the counter
    have hcre : (create_queue (emptyTable n)).2 = emptyTable ((n + 1) % U32) := by
      rw [create_queue_def, findSlot_empty, if_neg (by decide)]
      rw [show (emptyTable n).noncectr = n from rfl,
        qtktref_err_intro (Nat.zero_le MAXQ) hS, create_after_err]
      rfl
    have hstep : Step (emptyTable n) (emptyTable ((n + 1) % U32)) := by
      rw [← hcre]
      exact Step.create (emptyTable n)
    exact Relation.ReflTransGen.single hstep

/-- Iterating `advance_empty`: from an empty table at counter `n`, any
counter value `(n + k) % 2 ^ 32` is reachable with the table empty. -/
lemma steps_empty_iter (k : Nat) :
    ∀ n, n < U32 → Steps (emptyTable n) (emptyTable ((n + k) % U32)) := by
  induction k with
  | zero =>
    intro n hn
    rw [Nat.add_zero, Nat.mod_eq_of_lt hn]
    exact Relation.ReflTransGen.refl
  | succ k ih =>
    intro n hn
    have h1 := ih n hn
    have h2 := advance_empty ((n + k) % U32)
    have h3 : ((n + k) % U32 + 1) % U32 = (n + (k + 1)) % U32 := by
      rw [Nat.mod_add_mod, Nat.add_assoc]
    rw [h3] at h2
    exact Relation.ReflTransGen.trans h1 h2

/-- Every empty-table state with a positive 32-bit counter value is
reachable from the initial state. -/
lemma reach_empty (n : Nat) (h1 : 1 ≤ n) (h2 : n < U32) :
    Reachable (emptyTable n) := by
  have h := steps_empty_iter (n - 1) 1 (by decide)
  have he : (1 + (n - 1)) % U32 = n := by
    rw [show 1 + (n - 1) = n by omega]
    exact Nat.mod_eq_of_lt h2
  rw [he] at h
  exact h

/-- Deleting the first-created queue leaves the table empty with the
counter at 2. -/
lemma delete_wS1 : delete_queue wS1 wT1 = (QE_NONE, emptyTable 2) := by
  rw [delete_queue_def, show readref wS1 wT1 = Except.ok 0 from rfl, delete_after_okr]
  apply congrArg
  apply QState.ext
  · funext i
    by_cases hi : i = 0
    · rw [hi]
      show (if (0 : Nat) = 0 then none else wS1.queues 0) = none
      rw [if_pos rfl]
    · show (if i = 0 then none else wS1.queues i) = none
      rw [if_neg hi]
      show (if i = 0 then some (mkQueue wT1) else init.queues i) = none
      rw [if_neg hi]
      rfl
  · rfl

/-- Counterexample to C1 as stated: the nonce counter lives in a 32-bit
`unsigned int`, so after `2 ^ 32 - 1` further create attempts (each
advancing the counter, whether or not it succeeds) the counter wraps
back to 1 and the re-created queue in slot 0 receives the very same
handle `h` as the deleted one; `delete_queue` with the old handle then
succeeds (`QE_NONE`) instead of failing with `QE_BADTICKET`. -/
theorem claim1_counterexample : ¬ C1Statement := by
  intro hC
  have hsteps : Steps (emptyTable 2) (emptyTable 1) := by
    have h := steps_empty_iter (U32 - 1) 2 (by decide)
    rw [show (2 + (U32 - 1)) % U32 = 1 by decide] at h
    exact h
  have hfin := (hC init wS1 (emptyTable 2) (emptyTable 1) wS1 wT1 wT1 0
    Relation.ReflTransGen.refl rfl rfl delete_wS1 hsteps rfl rfl).1
  have hnone : (delete_queue wS1 wT1).1 = QE_NONE := congrArg Prod.fst delete_wS1
  rw [hfin] at hnone
  exact absurd hnone (by decide)

/-- C1 amended: same scenario, with the proviso that the re-issued
handle `hh` differs from the old handle `h` (which the counterexample
shows can fail only after the 32-bit nonce counter wraps around): then
every operation presented with `h` fails with `QE_BADTICKET` and leaves
the state unchanged. -/
theorem claim1_stale_rejection (s0 s1 s2 s3 s4 : QState) (h hh i : Nat)
    (hreach : Reachable s0)
    (hcre : create_queue s0 = (Except.ok h, s1))
    (hdec : decodeIndex h = i)
    (hdel : delete_queue s1 h = (QE_NONE, s2))
    (hsteps : Steps s2 s3)
    (hcre2 : create_queue s3 = (Except.ok hh, s4))
    (hdec2 : decodeIndex hh = i)
    (hne : hh ≠ h) :
    (delete_queue s4 h).1 = QE_BADTICKET ∧ (delete_queue s4 h).2 = s4 ∧
    (∀ v, (put_on_queue s4 h v).1 = QE_BADTICKET ∧ (put_on_queue s4 h v).2 = s4) ∧
    (take_off_queue s4 h).1 = QE_BADTICKET ∧ (take_off_queue s4 h).2 = s4 := by
  rcases create_queue_cases s3 with ⟨-, e, he⟩ | ⟨cur, tkt, nn, hlt, -, -, hm, hcc⟩
  · rw [hcre2] at he
    exact absurd he (by simp)
  · rw [hcc] at hcre2
    obtain ⟨h1, h2⟩ := Prod.mk.injEq .. ▸ hcre2
    have htkt : tkt = hh := Except.ok.inj h1
    have hcur : cur = i := by
      rw [← hdec2, ← htkt]
      exact (decode_of_high hlt (qtktref_ok_fields hm).2.2).symm
    have hocc : s4.queues i = some (mkQueue hh) := by
      rw [← h2, ← hcur, ← htkt]
      show (if cur = cur then some (mkQueue tkt) else s3.queues cur) = some (mkQueue tkt)
      rw [if_pos rfl]
    have hrr : readref s4 h = Except.error QE_BADTICKET := by
      rcases readref_cases s4 h with ⟨h1', he'⟩ | ⟨h1', hq', he'⟩ | ⟨q', h1', hq', h2', he'⟩ |
        ⟨q', h1', hq', h2', h3', he'⟩ | ⟨q', h1', hq', h2', h3a', h3b', h3c', h3d', h4', he'⟩ |
        ⟨q', h1', hq', h2', h3a', h3b', h3c', h3d', h4', he'⟩
      · exact he'
      · exact he'
      · exact he'
      · rw [hdec, hocc] at hq'
        have hqq := (Option.some.inj hq').symm
        rw [hqq] at h2'
        exact absurd h2' hne
      · rw [hdec, hocc] at hq'
        have hqq := (Option.some.inj hq').symm
        rw [hqq] at h2'
        exact absurd h2' hne
      · rw [hdec, hocc] at hq'
        have hqq := (Option.some.inj hq').symm
        rw [hqq] at h2'
        exact absurd h2' hne
    refine ⟨?_, ?_, fun v => ⟨?_, ?_⟩, ?_, ?_⟩
    · rw [delete_queue_def, hrr, delete_after_err]
    · rw [delete_queue_def, hrr, delete_after_err]
    · rw [put_on_queue_def, hrr, put_after_err]
    · rw [put_on_queue_def, hrr, put_after_err]
    · rw [take_off_queue_def, hrr, take_after_err]
    · rw [take_off_queue_def, hrr, take_after_err]

/-- Witness for the amended C1: create, delete, create again without
wrapping the counter; the new handle differs and the old one is
rejected by every operation. -/
theorem claim1_witness :
    delete_queue wS1 wT1 = (QE_NONE, emptyTable 2) ∧ wT1b ≠ wT1 ∧
    (delete_queue (create_queue (emptyTable 2)).2 wT1).1 = QE_BADTICKET ∧
    (take_off_queue (create_queue (emptyTable 2)).2 wT1).2 =
      (create_queue (emptyTable 2)).2 :=
  ⟨delete_wS1, by decide,
   (claim1_stale_rejection init wS1 (emptyTable 2) (emptyTable 2)
      (create_queue (emptyTable 2)).2 wT1 wT1b 0 Relation.ReflTransGen.refl rfl rfl
      delete_wS1 Relation.ReflTransGen.refl rfl rfl (by decide)).1,
   (claim1_stale_rejection init wS1 (emptyTable 2) (emptyTable 2)
      (create_queue (emptyTable 2)).2 wT1 wT1b 0 Relation.ReflTransGen.refl rfl rfl
      delete_wS1 Relation.ReflTransGen.refl rfl rfl (by decide)).2.2.2.2⟩

/-- Counterexample to C10 as stated: `noncectr` is a 32-bit counter, so
the reachable empty-table state with `noncectr = 2 ^ 32 - NOFFSET + 1`
satisfies `2 ^ 16 ≤ noncectr + NOFFSET`, yet the computed sum wraps
modulo `2 ^ 32` to the small value 1, the 16-bit check passes again,
and `qtktref` succeeds instead of returning `QE_INTINCON` — the failure
mode is not permanent. -/
theorem claim10_counterexample : ¬ C10Statement := by
  intro hC
  have hreach : Reachable (emptyTable 4294966015) :=
    reach_empty 4294966015 (by decide) (by decide)
  have h := hC (emptyTable 4294966015) 0 hreach (by decide) (Nat.zero_le MAXQ)
  have h2 : (qtktref 0 4294966015).1 =
      Except.ok ((0 + IOFFSET) * U16 + (4294966015 + NOFFSET) % U32) := by
    rw [qtktref_ok_intro (Nat.zero_le MAXQ) (by decide) (by decide)]
  have h1 := h.1
  rw [show (emptyTable 4294966015).noncectr = 4294966015 from rfl] at h1
  rw [h2] at h1
  exact absurd h1 (by simp)

/-- C10 amended: before the 32-bit wraparound of the counter (that is,
while `2 ^ 16 ≤ noncectr + NOFFSET < 2 ^ 32`), every `qtktref` call
that passes the index check fails with `QE_INTINCON` while still
incrementing `noncectr`, so every `create_queue` call that finds a free
slot returns `QE_INTINCON` and leaves the slot table unchanged; and the
nonces of successful mints issued before that point are pairwise
distinct. -/
theorem claim10_dead_zone (n idx : Nat) (hidx : idx ≤ MAXQ)
    (hlo : U16 ≤ n + NOFFSET) (hhi : n + NOFFSET < U32) :
    ((qtktref idx n).1 = Except.error QE_INTINCON ∧
     (qtktref idx n).2 = (n + 1) % U32) ∧
    (∀ s : QState, s.noncectr = n → (∃ j, j < MAXQ ∧ s.queues j = none) →
      (create_queue s).1 = Except.error QE_INTINCON ∧
      (create_queue s).2.queues = s.queues) ∧
    (∀ n1 n2 i1 i2 t1 t2, n1 + NOFFSET < U32 → n2 + NOFFSET < U32 → n1 ≠ n2 →
      (qtktref i1 n1).1 = Except.ok t1 → (qtktref i2 n2).1 = Except.ok t2 →
      t1 % U16 ≠ t2 % U16) := by
  have hfail : ¬((n + NOFFSET) % U32 < U16 ∧ (n + NOFFSET) % U32 ≠ 0) := by
    rw [Nat.mod_eq_of_lt hhi]
    rintro ⟨ha, -⟩
    omega
  refine ⟨?_, ?_, ?_⟩
  · rw [qtktref_err_intro hidx hfail]
    exact ⟨rfl, rfl⟩
  · intro s hsn hfree
    have hc : findSlot s.queues 0 MAXQ ≠ MAXQ := by
      intro hc
      obtain ⟨j, hj, hjn⟩ := hfree
      rw [← hc] at hj
      exact findSlot_min s.queues MAXQ 0 j (Nat.zero_le j) hj hjn
    have hcle : findSlot s.queues 0 MAXQ ≤ MAXQ := findSlot_le s.queues MAXQ 0
    rw [create_queue_def, if_neg hc, hsn, qtktref_err_intro hcle hfail, create_after_err]
    exact ⟨rfl, rfl⟩
  · intro n1 n2 i1 i2 t1 t2 hn1 hn2 hne ht1 ht2
    have hp1 : qtktref i1 n1 = ((qtktref i1 n1).1, (qtktref i1 n1).2) := rfl
    rw [ht1] at hp1
    have hp2 : qtktref i2 n2 = ((qtktref i2 n2).1, (qtktref i2 n2).2) := rfl
    rw [ht2] at hp2
    obtain ⟨-, he1, hl1, -, -⟩ := qtktref_ok_elim hp1
    obtain ⟨-, he2, hl2, -, -⟩ := qtktref_ok_elim hp2
    rw [he1, he2, pack_mod _ _ hl1, pack_mod _ _ hl2,
      Nat.mod_eq_of_lt hn1, Nat.mod_eq_of_lt hn2]
    intro heq
    exact hne (by omega)

/-- Witness for the amended C10 in the dead zone `noncectr = 0xFAFE`:
minting fails yet increments, creation fails leaving the table alone,
and the two earlier successful nonces differ. -/
theorem claim10_witness :
    (qtktref 0 64254).1 = Except.error QE_INTINCON ∧
    (qtktref 0 64254).2 = 64255 % U32 ∧
    (create_queue (emptyTable 64254)).1 = Except.error QE_INTINCON ∧
    (create_queue (emptyTable 64254)).2.queues = (emptyTable 64254).queues ∧
    wT1 % U16 ≠ wT1b % U16 :=
  ⟨((claim10_dead_zone 64254 0 (Nat.zero_le MAXQ) (by decide) (by decide)).1).1,
   ((claim10_dead_zone 64254 0 (Nat.zero_le MAXQ) (by decide) (by decide)).1).2,
   ((claim10_dead_zone 64254 0 (Nat.zero_le MAXQ) (by decide) (by decide)).2.1
      (emptyTable 64254) rfl ⟨0, by decide, rfl⟩).1,
   ((claim10_dead_zone 64254 0 (Nat.zero_le MAXQ) (by decide) (by decide)).2.1
      (emptyTable 64254) rfl ⟨0, by decide, rfl⟩).2,
   (claim10_dead_zone 64254 0 (Nat.zero_le MAXQ) (by decide) (by decide)).2.2
      1 2 0 0 wT1 wT1b (by decide) (by decide) (by decide) rfl rfl⟩

end QLib
